import Mathlib

/-!
Verification of the section-sequencing, slot-normalization, link-enforcement
and plan-validation logic of the vunked email agent.

The definitions below are shallow embeddings of:
  * `postProcessSequence` (src/agents/retrieve.js, lines 312-371),
  * the normalization pass inside `attemptPlan` / `createPlan`
    (src/agents/plan.js, lines 200-312),
  * `normalizeSlots` (src/agents/plan.js, lines 814-851),
  * `selectDefaultCtaLink` and the hero-CTA enforcement in `generateCopy`
    (src/agents/plan.js, lines 681-690 and 904-926),
  * `LINK_DIRECTORY`, `resolveLink` and `validatePlan`
    (src/unnamed/part_000, lines 9-27 and 104-127).

JavaScript arrays are lists, JS objects are association lists in insertion
order (JS objects cannot contain a duplicate key), and loosely-typed JSON
values are `JValue`.  `Array.prototype.splice(i, 0, x)` and `splice(i, 1)`
are `jsInsert`/`jsRemove` (which, like splice, clamp an index beyond the
end of the array).  `Array.prototype.indexOf` is `jsIndexOf`; it is always
used under a membership guard mirroring the `=== -1` checks of the source,
so the value returned on a missing element is never consumed.
-/

/-- JSON-like value as returned by the model service: a string, an array,
or an object (association list of fields in insertion order). -/
inductive JValue where
  | str (s : String) : JValue
  | arr (elems : List JValue) : JValue
  | obj (fields : List (String × JValue)) : JValue

/-- JavaScript truthiness on `JValue`: the empty string is the only falsy
value among strings, arrays and objects (even `[]` and `{}` are truthy). -/
def jsTruthy : JValue → Bool
  | .str s => s ≠ ""
  | .arr _ => true
  | .obj _ => true

/-- JavaScript `typeof v === 'string'`. -/
def jsIsString : JValue → Bool
  | .str _ => true
  | _ => false

/-- JavaScript `Array.isArray(v)`. -/
def jsIsArray : JValue → Bool
  | .arr _ => true
  | _ => false

/-- JavaScript `typeof v === 'object'`: true for arrays and plain objects,
false for strings. -/
def jsTypeofObject : JValue → Bool
  | .str _ => false
  | .arr _ => true
  | .obj _ => true

/-- Property read `o[k]` on a JS object represented as an association
list: the first binding of the key, if any. -/
def jsGetField : List (String × JValue) → String → Option JValue
  | [], _ => none
  | (k', v) :: rest, k => if k' = k then some v else jsGetField rest k

/-- Property write `o[k] = v` on a JS object: an existing key keeps its
position and gets the new value, a new key is appended. -/
def jsSetField : List (String × JValue) → String → JValue → List (String × JValue)
  | [], k, v => [(k, v)]
  | (k', v') :: rest, k, v =>
    if k' = k then (k, v) :: rest else (k', v') :: jsSetField rest k v

/-- JavaScript `array.indexOf(x)`.  Returns the length when `x` is absent;
in the embedded source every use is guarded by a membership test mirroring
the `=== -1` comparison, so that value is never consumed. -/
def jsIndexOf : List String → String → Nat
  | [], _ => 0
  | y :: t, x => if y = x then 0 else jsIndexOf t x + 1

/-- JavaScript `array.splice(i, 0, x)` (insertion, with the index clamped
to the array length as splice does). -/
def jsInsert (l : List String) (i : Nat) (x : String) : List String :=
  l.take i ++ x :: l.drop i

/-- JavaScript `array.splice(i, 1)` (removal of one element, a no-op when
`i` is past the end, as splice does). -/
def jsRemove (l : List String) (i : Nat) : List String :=
  l.take i ++ l.drop (i + 1)

/-- Number of occurrences of `x` in a list of strings. -/
def occCount (x : String) : List String → Nat
  | [] => 0
  | y :: t => (if y = x then 1 else 0) + occCount x t

/-- JavaScript `haystack.includes(needle)` (substring containment). -/
def strIncludes (s sub : String) : Bool :=
  (List.range (s.toList.length + 1)).any fun i => sub.toList.isPrefixOf (s.toList.drop i)

/-- Lookup in a string-to-string record such as `LINK_DIRECTORY`. -/
def lookupStr : List (String × String) → String → Option String
  | [], _ => none
  | (k', v) :: rest, k => if k' = k then some v else lookupStr rest k

/-- The fixed allow-list of CTA destinations
(src/unnamed/part_000, lines 9-14). -/
def LINK_DIRECTORY : List (String × String) :=
  [("builder", "https://builder.vunked.com"),
   ("book_call", "https://cal.com/vunked/free-campervan-electrics-consultation-email"),
   ("homepage", "https://www.vunked.com"),
   ("blog", "https://vunked.com/blog")]

/-- The value set of the link directory (`Object.values(LINK_DIRECTORY)`),
used as the set of allowed hero CTA URLs in `generateCopy`. -/
def linkValues : List String := LINK_DIRECTORY.map Prod.snd

/-- Resolve an approved link by key; throws (`Except.error`) on an unknown
key (src/unnamed/part_000, lines 21-27).  The directory's values are
non-empty strings, so the source's falsiness check is a presence check. -/
def resolveLink (key : String) : Except String String :=
  match lookupStr LINK_DIRECTORY key with
  | some link => .ok link
  | none => .error ("Unknown link key: " ++ key)

/-- Fallback CTA selection (src/agents/plan.js, lines 904-926).  The
structure's `sequence` is its section list (a non-array is read as `[]`),
`email_goal` is lower-cased when it is a string and `''` otherwise. -/
def structGoalLower : Option String → String
  | some g => g.toLower
  | none => ""

def selectDefaultCtaLink (sequence : List String) (email_goal : Option String) :
    Except String String :=
  if "book-a-call" ∈ sequence
      ∨ strIncludes (structGoalLower email_goal) "consult" = true then
    resolveLink "book_call"
  else if "selling-points-what-you-get" ∈ sequence
      ∨ strIncludes (structGoalLower email_goal) "product" = true
      ∨ strIncludes (structGoalLower email_goal) "promo" = true
      ∨ strIncludes (structGoalLower email_goal) "sale" = true then
    resolveLink "builder"
  else if strIncludes (structGoalLower email_goal) "educat" = true
      ∨ strIncludes (structGoalLower email_goal) "guide" = true
      ∨ strIncludes (structGoalLower email_goal) "blog" = true then
    resolveLink "blog"
  else
    resolveLink "homepage"

/-- The allow-list membership check
`allowedLinks.has(heroSlot.cta_url)` of `generateCopy` (src/agents/plan.js,
lines 681-683): true exactly when the hero slot has a string `cta_url`
equal to one of the directory values. -/
def heroCtaAllowed (heroSlot : List (String × JValue)) : Bool :=
  match jsGetField heroSlot "cta_url" with
  | some (.str u) => decide (u ∈ linkValues)
  | _ => false

/-- Hero-CTA link enforcement (src/agents/plan.js, lines 681-690): when the
hero slot's `cta_url` is not an allow-listed string the slot is rebuilt as
`{ ...heroSlot, cta_url: fallbackLink }`. -/
def enforceHeroCta (heroSlot : List (String × JValue)) (structSequence : List String)
    (email_goal : Option String) : Except String (List (String × JValue)) :=
  if heroCtaAllowed heroSlot = true then .ok heroSlot
  else
    match selectDefaultCtaLink structSequence email_goal with
    | .ok link => .ok (jsSetField heroSlot "cta_url" (.str link))
    | .error e => .error e

/-- Shape of a raw decision as seen by `validatePlan`: each field either
absent (`none`, JS `undefined`) or some JSON value. -/
structure RawShape where
  subject : Option JValue
  preview : Option JValue
  sequence : Option JValue
  slots : Option JValue

/-- The check `!plan.subject || typeof plan.subject !== 'string'` does NOT
fire, i.e. the subject (or preview) field is a truthy string. -/
def fieldIsTruthyString : Option JValue → Bool
  | some v => jsTruthy v && jsIsString v
  | none => false

/-- The check `!Array.isArray(plan.sequence) || plan.sequence.length === 0`
does NOT fire. -/
def fieldIsNonemptyArray : Option JValue → Bool
  | some (.arr l) => l.length != 0
  | _ => false

/-- The check `!plan.slots || typeof plan.slots !== 'object'` does NOT
fire. -/
def fieldIsObjectLike : Option JValue → Bool
  | some v => jsTruthy v && jsTypeofObject v
  | none => false

/-- Plan shape validation (src/unnamed/part_000, lines 104-127; the same
function appears in src/agents/utils.js, lines 84-107).  Returns the pair
`(valid, errors)`. -/
def validatePlan (plan : RawShape) : Bool × List String :=
  let e1 := if fieldIsTruthyString plan.subject then [] else
    ["Plan must have a subject string"]
  let e2 := if fieldIsTruthyString plan.preview then [] else
    ["Plan must have a preview string"]
  let e3 := if fieldIsNonemptyArray plan.sequence then [] else
    ["Plan must have a non-empty sequence array"]
  let e4 := if fieldIsObjectLike plan.slots then [] else
    ["Plan must have a slots object"]
  let errors := e1 ++ e2 ++ e3 ++ e4
  (errors.length == 0, errors)

/-- The caller-side gate around `validatePlan` (src/agents/plan.js, lines
254-258 in `attemptPlan` and 692-696 in `generateCopy`): an invalid plan
raises an `Invalid plan structure` error that aborts the run. -/
def planValidationGate (plan : RawShape) : Except String RawShape :=
  let validation := validatePlan plan
  if validation.1 then .ok plan
  else .error ("Invalid plan structure: " ++ String.intercalate ", " validation.2)

/-- The `slotKeyMap` of `attemptPlan` and `normalizeSlots`
(src/agents/plan.js, lines 201-209 and 815-823). -/
def slotKeyMap : List (String × String) :=
  [("hero", "hero"),
   ("simple_body", "simple-body"),
   ("book_a_call", "book-a-call"),
   ("footer", "footer"),
   ("contact", "contact"),
   ("signature", "signature"),
   ("six_summary_cards", "six-summary-cards")]

/-- Key renaming `slotKeyMap[key] || key` (the map's values are non-empty
strings, hence truthy). -/
def mapSlotKey (k : String) : String :=
  match lookupStr slotKeyMap k with
  | some k' => k'
  | none => k

/-- Sequence member renaming
`plan.sequence.map(section => slotKeyMap[section] || section)`
(src/agents/plan.js, lines 211-213). -/
def renameSequence (sequence : List String) : List String :=
  sequence.map mapSlotKey

/-- Slot key renaming loop of `normalizeSlots` (src/agents/plan.js, lines
825-829): rebuild the object entry by entry under the renamed keys. -/
def renameSlotKeys (slots : List (String × JValue)) : List (String × JValue) :=
  slots.foldl (fun acc p => jsSetField acc (mapSlotKey p.1) p.2) []

/-- The `defaultSlots` table (src/agents/plan.js, lines 832-840). -/
def defaultSlots : List (String × JValue) :=
  [("hero", .obj [("title", .str ""), ("subtitle", .str ""),
                  ("cta_text", .str ""), ("cta_url", .str "")]),
   ("simple-body", .arr []),
   ("six-summary-cards", .arr []),
   ("book-a-call", .obj []),
   ("footer", .obj []),
   ("contact", .obj []),
   ("signature", .obj [])]

/-- The copy `Array.isArray(defaultValue) ? [] : { ...defaultValue }` made
when a default slot is inserted. -/
def jsEmptyCopy : JValue → JValue
  | .arr _ => .arr []
  | v => v

/-- The defaulting loop of `normalizeSlots` (src/agents/plan.js, lines
842-848): for each known slot key missing from the object, append the
type-correct empty default. -/
def addDefaultsAux (acc : List (String × JValue)) :
    List (String × JValue) → List (String × JValue)
  | [] => acc
  | d :: rest =>
    addDefaultsAux
      (if (jsGetField acc d.1).isSome then acc else acc ++ [(d.1, jsEmptyCopy d.2)])
      rest

/-- Slot normalization (src/agents/plan.js, lines 814-851; the same code is
inlined in `attemptPlan`, lines 215-241): rename every known underscore key
to its hyphen equivalent, then fill missing known slots with defaults. -/
def normalizeSlots (slots : List (String × JValue)) : List (String × JValue) :=
  addDefaultsAux (renameSlotKeys slots) defaultSlots

/-- Availability filter
`processed.filter(s => availableSections.includes(s))`
(src/agents/retrieve.js line 316; src/agents/plan.js lines 261-265). -/
def filterAvailable (sequence availableSections : List String) : List String :=
  sequence.filter fun s => s ∈ availableSections

/-- Hero placement step of `postProcessSequence`
(src/agents/retrieve.js, lines 318-324). -/
def fixHero (processed : List String) : List String :=
  if "hero" ∉ processed then
    "hero" :: processed
  else if processed.head? ≠ some "hero" then
    "hero" :: processed.filter (fun s => s ≠ "hero")
  else processed

/-- Footer placement step of `postProcessSequence`
(src/agents/retrieve.js, lines 326-332). -/
def fixFooter (processed : List String) : List String :=
  if "footer" ∉ processed then
    processed ++ ["footer"]
  else if processed.getLast? ≠ some "footer" then
    processed.filter (fun s => s ≠ "footer") ++ ["footer"]
  else processed

/-- Signature placement step of `postProcessSequence`
(src/agents/retrieve.js, lines 334-346).  The branch structure mirrors the
source's `=== -1` tests; `footer` is always present when this step runs. -/
def fixSignature (processed : List String) : List String :=
  if "signature" ∉ processed then
    jsInsert processed (jsIndexOf processed "footer") "signature"
  else if jsIndexOf processed "signature" > jsIndexOf processed "footer" then
    jsInsert (jsRemove processed (jsIndexOf processed "signature"))
      (jsIndexOf (jsRemove processed (jsIndexOf processed "signature")) "footer")
      "signature"
  else processed

/-- Summary-cards step of `postProcessSequence`
(src/agents/retrieve.js, lines 348-368), driven by the explicit
`use_summary_cards` flag.  Note that the move branch recomputes the
`simple-body` index after the removal. -/
def fixCardsLight (processed : List String) (useSummaryCards : Bool) : List String :=
  if useSummaryCards then
    if "six-summary-cards" ∉ processed ∧ "simple-body" ∈ processed then
      jsInsert processed (jsIndexOf processed "simple-body" + 1) "six-summary-cards"
    else if "six-summary-cards" ∈ processed ∧ "simple-body" ∈ processed
        ∧ jsIndexOf processed "six-summary-cards" ≠ jsIndexOf processed "simple-body" + 1 then
      jsInsert (jsRemove processed (jsIndexOf processed "six-summary-cards"))
        (jsIndexOf (jsRemove processed (jsIndexOf processed "six-summary-cards"))
          "simple-body" + 1)
        "six-summary-cards"
    else processed
  else if "six-summary-cards" ∈ processed then
    jsRemove processed (jsIndexOf processed "six-summary-cards")
  else processed

/-- Lightweight-mode normalization `postProcessSequence(sequence,
useSummaryCards, availableSections)` (src/agents/retrieve.js, lines
312-371). -/
def postProcessSequence (sequence : List String) (useSummaryCards : Bool)
    (availableSections : List String) : List String :=
  fixCardsLight
    (fixSignature (fixFooter (fixHero (filterAvailable sequence availableSections))))
    useSummaryCards

/-- Whether the six-summary-cards slot payload is a non-empty array:
`Array.isArray(cards) && cards.length > 0` (src/agents/plan.js, line
269). -/
def planHasCards (slots : List (String × JValue)) : Bool :=
  match jsGetField slots "six-summary-cards" with
  | some (.arr l) => l.length > 0
  | _ => false

/-- Summary-cards step of `attemptPlan` (src/agents/plan.js, lines
267-289).  Unlike the lightweight path, the move branch reuses the
`simpleBodyIndex` computed BEFORE the removal (the source's
`plan.sequence.splice(simpleBodyIndex + 1, 0, ...)` after
`plan.sequence.splice(cardsIndex, 1)`), and the removal branch also forces
the cards slot payload to `[]`. -/
def fixCardsFull (sequence : List String) (slots : List (String × JValue)) :
    List String × List (String × JValue) :=
  if planHasCards slots then
    if "six-summary-cards" ∉ sequence ∧ "simple-body" ∈ sequence then
      (jsInsert sequence (jsIndexOf sequence "simple-body" + 1) "six-summary-cards", slots)
    else if "six-summary-cards" ∈ sequence ∧ "simple-body" ∈ sequence
        ∧ jsIndexOf sequence "six-summary-cards" ≠ jsIndexOf sequence "simple-body" + 1 then
      (jsInsert (jsRemove sequence (jsIndexOf sequence "six-summary-cards"))
        (jsIndexOf sequence "simple-body" + 1) "six-summary-cards", slots)
    else (sequence, slots)
  else if "six-summary-cards" ∈ sequence then
    (jsRemove sequence (jsIndexOf sequence "six-summary-cards"),
     jsSetField slots "six-summary-cards" (.arr []))
  else (sequence, slots)

/-- Signature step of `attemptPlan` (src/agents/plan.js, lines 291-312).
The insertion index is the `footerIndex` computed before the removal, as in
the source; the slot default `if (!plan.slots.signature)` uses JS
falsiness. -/
def fixSignatureFull (sequence : List String) (slots : List (String × JValue)) :
    List String × List (String × JValue) :=
  if "signature" ∉ sequence ∧ "footer" ∈ sequence then
    (jsInsert sequence (jsIndexOf sequence "footer") "signature",
     match jsGetField slots "signature" with
     | some v => if jsTruthy v then slots else jsSetField slots "signature" (.obj [])
     | none => jsSetField slots "signature" (.obj []))
  else if "signature" ∈ sequence ∧ "footer" ∈ sequence
      ∧ jsIndexOf sequence "signature" > jsIndexOf sequence "footer" then
    (jsInsert (jsRemove sequence (jsIndexOf sequence "signature"))
      (jsIndexOf sequence "footer") "signature", slots)
  else (sequence, slots)

/-- Full-mode sequence fixups of `attemptPlan` (src/agents/plan.js, lines
260-312): availability filter, then cards placement, then signature
placement.  There is no hero or footer placement step in this path. -/
def attemptPlanFixups (sequence : List String) (slots : List (String × JValue))
    (availableSections : List String) : List String × List (String × JValue) :=
  fixSignatureFull
    (fixCardsFull (filterAvailable sequence availableSections) slots).1
    (fixCardsFull (filterAvailable sequence availableSections) slots).2


/-- Sections the ordering fixups may insert, move or delete; every other id
is only ever passed through (possibly dropped by the availability filter). -/
def nonSpecialSection (s : String) : Bool :=
  !(s == "hero" || s == "footer" || s == "signature" || s == "six-summary-cards")

/-! Basic lemmas about the JavaScript array primitives. -/

theorem jsIndexOf_cons_self {x : String} {t : List String} :
    jsIndexOf (x :: t) x = 0 := by
  simp [jsIndexOf]

theorem jsIndexOf_cons_ne {x y : String} {t : List String} (h : y ≠ x) :
    jsIndexOf (y :: t) x = jsIndexOf t x + 1 := by
  simp [jsIndexOf, h]

theorem jsIndexOf_of_not_mem {x : String} {l : List String} (h : x ∉ l) :
    jsIndexOf l x = l.length := by
  induction l with
  | nil => rfl
  | cons y t ih =>
    have hyx : y ≠ x := fun e => h (e ▸ List.mem_cons_self y t)
    have hxt : x ∉ t := fun e => h (List.mem_cons_of_mem _ e)
    simp [jsIndexOf, hyx, ih hxt]

theorem jsIndexOf_lt_length {x : String} {l : List String} (h : x ∈ l) :
    jsIndexOf l x < l.length := by
  induction l with
  | nil => cases h
  | cons y t ih =>
    by_cases hyx : y = x
    · simp [jsIndexOf, hyx]
    · rcases List.mem_cons.mp h with h' | h'
      · exact absurd h'.symm hyx
      · simpa [jsIndexOf, hyx, Nat.succ_lt_succ_iff] using ih h'

theorem not_mem_take_of_le_jsIndexOf {x : String} {l : List String} {n : Nat}
    (h : n ≤ jsIndexOf l x) : x ∉ l.take n := by
  induction l generalizing n with
  | nil => simp
  | cons y t ih =>
    cases n with
    | zero => simp
    | succ m =>
      by_cases hyx : y = x
      · simp [jsIndexOf, hyx] at h
      · rw [jsIndexOf_cons_ne hyx] at h
        have := ih (Nat.le_of_succ_le_succ h)
        simp only [List.take_succ_cons, List.mem_cons]
        rintro (e | e)
        · exact hyx e.symm
        · exact this e

theorem not_mem_take_jsIndexOf {x : String} {l : List String} :
    x ∉ l.take (jsIndexOf l x) :=
  not_mem_take_of_le_jsIndexOf (Nat.le_refl _)

theorem drop_jsIndexOf {x : String} {l : List String} (h : x ∈ l) :
    l.drop (jsIndexOf l x) = x :: l.drop (jsIndexOf l x + 1) := by
  induction l with
  | nil => cases h
  | cons y t ih =>
    by_cases hyx : y = x
    · simp [jsIndexOf, hyx]
    · rcases List.mem_cons.mp h with h' | h'
      · exact absurd h'.symm hyx
      · rw [jsIndexOf_cons_ne hyx]
        simpa using ih h'

theorem jsIndexOf_decomp {x : String} {l : List String} (h : x ∈ l) :
    l = l.take (jsIndexOf l x) ++ x :: l.drop (jsIndexOf l x + 1) := by
  conv_lhs => rw [← List.take_append_drop (jsIndexOf l x) l]
  rw [drop_jsIndexOf h]

theorem jsIndexOf_append_left {x : String} {l₁ l₂ : List String} (h : x ∈ l₁) :
    jsIndexOf (l₁ ++ l₂) x = jsIndexOf l₁ x := by
  induction l₁ with
  | nil => cases h
  | cons y t ih =>
    by_cases hyx : y = x
    · simp [jsIndexOf, hyx]
    · rcases List.mem_cons.mp h with h' | h'
      · exact absurd h'.symm hyx
      · simp [jsIndexOf, hyx, ih h']

theorem jsIndexOf_append_right {x : String} {l₁ l₂ : List String} (h : x ∉ l₁) :
    jsIndexOf (l₁ ++ l₂) x = l₁.length + jsIndexOf l₂ x := by
  induction l₁ with
  | nil => simp
  | cons y t ih =>
    have hyx : y ≠ x := fun e => h (e ▸ List.mem_cons_self y t)
    have hxt : x ∉ t := fun e => h (List.mem_cons_of_mem _ e)
    simp [jsIndexOf, hyx, ih hxt, Nat.add_right_comm]

theorem mem_jsInsert {y x : String} {l : List String} {i : Nat} :
    y ∈ jsInsert l i x ↔ y = x ∨ y ∈ l := by
  unfold jsInsert
  constructor
  · intro h
    rcases List.mem_append.mp h with h' | h'
    · exact Or.inr (List.take_subset _ _ h')
    · rcases List.mem_cons.mp h' with h'' | h''
      · exact Or.inl h''
      · exact Or.inr (List.drop_subset _ _ h'')
  · intro h
    rcases h with h' | h'
    · exact List.mem_append.mpr (Or.inr (List.mem_cons.mpr (Or.inl h')))
    · rw [← List.take_append_drop i l] at h'
      rcases List.mem_append.mp h' with h'' | h''
      · exact List.mem_append.mpr (Or.inl h'')
      · exact List.mem_append.mpr (Or.inr (List.mem_cons.mpr (Or.inr h'')))

theorem mem_of_mem_jsRemove {y : String} {l : List String} {i : Nat}
    (h : y ∈ jsRemove l i) : y ∈ l := by
  unfold jsRemove at h
  rcases List.mem_append.mp h with h' | h'
  · exact List.take_subset _ _ h'
  · exact List.drop_subset _ _ h'

theorem jsInsert_cons_succ {a x : String} {l : List String} {i : Nat} :
    jsInsert (a :: l) (i + 1) x = a :: jsInsert l i x := by
  simp [jsInsert]

theorem jsRemove_cons_succ {a : String} {l : List String} {i : Nat} :
    jsRemove (a :: l) (i + 1) = a :: jsRemove l i := by
  simp [jsRemove]

theorem sublist_jsInsert {s l : List String} {i : Nat} {x : String}
    (h : List.Sublist s l) : List.Sublist s (jsInsert l i x) := by
  have h₂ : List.Sublist l (jsInsert l i x) := by
    conv_lhs => rw [← List.take_append_drop i l]
    exact List.Sublist.append_left (List.sublist_cons_self _ _) _
  exact h.trans h₂

theorem occCount_append {x : String} {l₁ l₂ : List String} :
    occCount x (l₁ ++ l₂) = occCount x l₁ + occCount x l₂ := by
  induction l₁ with
  | nil => simp [occCount]
  | cons y t ih => simp [occCount, ih, Nat.add_assoc]

theorem occCount_eq_zero {x : String} {l : List String} :
    occCount x l = 0 ↔ x ∉ l := by
  induction l with
  | nil => simp [occCount]
  | cons y t ih =>
    by_cases hyx : y = x
    · simp [occCount, hyx]
    · simp [occCount, hyx, ih, Ne.symm hyx]

theorem occCount_pos {x : String} {l : List String} (h : x ∈ l) :
    1 ≤ occCount x l := by
  by_contra hc
  exact (occCount_eq_zero.mp (Nat.eq_zero_of_not_pos hc)) h

theorem occCount_filter_le {x : String} {p : String → Bool} {l : List String} :
    occCount x (l.filter p) ≤ occCount x l := by
  induction l with
  | nil => simp [occCount]
  | cons y t ih =>
    rw [List.filter_cons]
    by_cases hp : p y
    · rw [if_pos hp]
      show (if y = x then 1 else 0) + occCount x (t.filter p)
          ≤ (if y = x then 1 else 0) + occCount x t
      exact Nat.add_le_add_left ih _
    · rw [if_neg hp]
      show occCount x (t.filter p) ≤ (if y = x then 1 else 0) + occCount x t
      exact ih.trans (Nat.le_add_left _ _)

theorem occCount_jsInsert {x y : String} {l : List String} {i : Nat} :
    occCount x (jsInsert l i y) = (if y = x then 1 else 0) + occCount x l := by
  unfold jsInsert
  rw [occCount_append]
  show occCount x (l.take i) + ((if y = x then 1 else 0) + occCount x (l.drop i)) = _
  conv_rhs => rw [← List.take_append_drop i l, occCount_append]
  omega

theorem occCount_jsRemove_jsIndexOf {x : String} {l : List String} (h : x ∈ l) :
    occCount x (jsRemove l (jsIndexOf l x)) + 1 = occCount x l := by
  unfold jsRemove
  rw [occCount_append]
  conv_rhs => rw [jsIndexOf_decomp h, occCount_append]
  simp [occCount]
  omega

theorem not_mem_jsRemove_jsIndexOf {x : String} {l : List String}
    (hc : occCount x l ≤ 1) (h : x ∈ l) :
    x ∉ jsRemove l (jsIndexOf l x) := by
  have := occCount_jsRemove_jsIndexOf h
  intro hmem
  have := occCount_pos hmem
  omega

theorem getLast?_append_right {l₁ l₂ : List String} (h : l₂ ≠ []) :
    (l₁ ++ l₂).getLast? = l₂.getLast? := by
  rw [List.getLast?_append, List.getLast?_eq_getLast_of_ne_nil h]
  rfl

theorem getLast?_jsInsert {x : String} {l : List String} {i : Nat}
    (h : i < l.length) : (jsInsert l i x).getLast? = l.getLast? := by
  have hd : l.drop i ≠ [] := by
    intro e
    have := List.length_drop i l
    rw [e] at this
    simp at this
    omega
  unfold jsInsert
  rw [getLast?_append_right (by simp)]
  conv_rhs => rw [← List.take_append_drop i l]
  rw [getLast?_append_right hd]
  cases hl : l.drop i with
  | nil => exact absurd hl hd
  | cons a t => simp

theorem getLast?_jsRemove {l : List String} {i : Nat}
    (h : i + 1 < l.length) : (jsRemove l i).getLast? = l.getLast? := by
  have hd : l.drop (i + 1) ≠ [] := by
    intro e
    have := List.length_drop (i + 1) l
    rw [e] at this
    simp at this
    omega
  unfold jsRemove
  rw [getLast?_append_right hd]
  conv_rhs => rw [← List.take_append_drop (i + 1) l]
  rw [getLast?_append_right hd]

/-! Lemmas about association-list objects. -/

theorem jsGetField_append {l l' : List (String × JValue)} {k : String} :
    jsGetField (l ++ l') k = (jsGetField l k).or (jsGetField l' k) := by
  induction l with
  | nil => simp [jsGetField]
  | cons p rest ih =>
    by_cases hk : p.1 = k
    · simp [jsGetField, hk]
    · simpa [jsGetField, hk] using ih

theorem jsGetField_append_left {l l' : List (String × JValue)} {k : String} {v : JValue}
    (h : jsGetField l k = some v) : jsGetField (l ++ l') k = some v := by
  rw [jsGetField_append, h]
  rfl

theorem jsGetField_append_right {l l' : List (String × JValue)} {k : String}
    (h : jsGetField l k = none) : jsGetField (l ++ l') k = jsGetField l' k := by
  rw [jsGetField_append, h]
  rfl

theorem jsGetField_eq_none {l : List (String × JValue)} {k : String}
    (h : ∀ p ∈ l, p.1 ≠ k) : jsGetField l k = none := by
  induction l with
  | nil => rfl
  | cons p rest ih =>
    have hp := h p (List.mem_cons_self _ _)
    simp only [jsGetField, if_neg hp]
    exact ih fun q hq => h q (List.mem_cons_of_mem _ hq)

theorem jsGetField_isSome_of_mem {l : List (String × JValue)} {k : String} {v : JValue}
    (h : (k, v) ∈ l) : (jsGetField l k).isSome := by
  induction l with
  | nil => cases h
  | cons p rest ih =>
    by_cases hk : p.1 = k
    · simp [jsGetField, hk]
    · rcases List.mem_cons.mp h with h' | h'
      · exact absurd (congrArg Prod.fst h').symm hk
      · simpa [jsGetField, hk] using ih h'

theorem jsGetField_of_mem_nodup {l : List (String × JValue)} {k : String} {v : JValue}
    (hnd : (l.map Prod.fst).Nodup) (h : (k, v) ∈ l) : jsGetField l k = some v := by
  induction l with
  | nil => cases h
  | cons p rest ih =>
    rcases List.mem_cons.mp h with h' | h'
    · rw [← h']
      simp [jsGetField]
    · have hk : p.1 ≠ k := by
        intro e
        have : p.1 ∉ rest.map Prod.fst := (List.nodup_cons.mp hnd).1
        exact this (e ▸ List.mem_map.mpr ⟨(k, v), h', rfl⟩)
      simp only [jsGetField, if_neg hk]
      exact ih (List.nodup_cons.mp hnd).2 h'

theorem jsSetField_of_forall_ne {l : List (String × JValue)} {k : String} {v : JValue}
    (h : ∀ p ∈ l, p.1 ≠ k) : jsSetField l k v = l ++ [(k, v)] := by
  induction l with
  | nil => rfl
  | cons p rest ih =>
    have hp := h p (List.mem_cons_self _ _)
    simp only [jsSetField]
    rw [if_neg hp, ih fun q hq => h q (List.mem_cons_of_mem _ hq)]
    rfl

theorem jsGetField_jsSetField_self {l : List (String × JValue)} {k : String} {v : JValue} :
    jsGetField (jsSetField l k v) k = some v := by
  induction l with
  | nil => simp [jsSetField, jsGetField]
  | cons p rest ih =>
    by_cases hk : p.1 = k
    · simp [jsSetField, jsGetField, hk]
    · simp only [jsSetField, if_neg hk, jsGetField]
      exact ih

theorem jsGetField_jsSetField_ne {l : List (String × JValue)} {k k' : String} {v : JValue}
    (h : k' ≠ k) : jsGetField (jsSetField l k v) k' = jsGetField l k' := by
  induction l with
  | nil =>
    simp only [jsSetField, jsGetField]
    rw [if_neg (Ne.symm h)]
  | cons p rest ih =>
    by_cases hk : p.1 = k
    · simp only [jsSetField, if_pos hk, jsGetField]
      rw [if_neg (Ne.symm h), if_neg (by rw [hk]; exact Ne.symm h)]
    · simp only [jsSetField, if_neg hk, jsGetField]
      by_cases hk' : p.1 = k'
      · rw [if_pos hk', if_pos hk']
      · rw [if_neg hk', if_neg hk']
        exact ih

/-! Lemmas about the renaming fold and the defaulting fold of
`normalizeSlots`. -/

theorem renameFold_eq_append (slots : List (String × JValue)) :
    ∀ acc : List (String × JValue),
    ((slots.map fun p => mapSlotKey p.1).Nodup) →
    (∀ p ∈ slots, mapSlotKey p.1 ∉ acc.map Prod.fst) →
    slots.foldl (fun a p => jsSetField a (mapSlotKey p.1) p.2) acc
      = acc ++ slots.map fun p => (mapSlotKey p.1, p.2) := by
  induction slots with
  | nil => intro acc _ _; simp
  | cons p rest ih =>
    intro acc hnd hdisj
    rw [List.map_cons, List.nodup_cons] at hnd
    have hstep : jsSetField acc (mapSlotKey p.1) p.2 = acc ++ [(mapSlotKey p.1, p.2)] :=
      jsSetField_of_forall_ne fun q hq e =>
        hdisj p (List.mem_cons_self _ _) (e ▸ List.mem_map.mpr ⟨q, hq, rfl⟩)
    have hdisj' : ∀ q ∈ rest,
        mapSlotKey q.1 ∉ (acc ++ [(mapSlotKey p.1, p.2)]).map Prod.fst := by
      intro q hq
      simp only [List.map_append, List.mem_append]
      rintro (h' | h')
      · exact hdisj q (List.mem_cons_of_mem _ hq) h'
      · have he : mapSlotKey q.1 = mapSlotKey p.1 := by simpa using h'
        exact hnd.1 (he ▸ List.mem_map.mpr ⟨q, hq, rfl⟩)
    rw [List.foldl_cons, hstep, ih _ hnd.2 hdisj']
    simp

theorem renameSlotKeys_eq_map {slots : List (String × JValue)}
    (hnd : (slots.map fun p => mapSlotKey p.1).Nodup) :
    renameSlotKeys slots = slots.map fun p => (mapSlotKey p.1, p.2) := by
  unfold renameSlotKeys
  rw [renameFold_eq_append slots [] hnd (by simp)]
  rfl

theorem addDefaultsAux_preserves_some {acc : List (String × JValue)}
    {ds : List (String × JValue)} {k : String} {v : JValue}
    (h : jsGetField acc k = some v) :
    jsGetField (addDefaultsAux acc ds) k = some v := by
  induction ds generalizing acc with
  | nil => exact h
  | cons d rest ih =>
    simp only [addDefaultsAux]
    by_cases hs : (jsGetField acc d.1).isSome
    · rw [if_pos hs]
      exact ih h
    · rw [if_neg hs]
      exact ih (jsGetField_append_left h)

theorem addDefaultsAux_fills {acc : List (String × JValue)}
    {ds : List (String × JValue)} {d : (String × JValue)}
    (hnd : (ds.map Prod.fst).Nodup) (hd : d ∈ ds)
    (h : jsGetField acc d.1 = none) :
    jsGetField (addDefaultsAux acc ds) d.1 = some (jsEmptyCopy d.2) := by
  induction ds generalizing acc with
  | nil => cases hd
  | cons d' rest ih =>
    simp only [addDefaultsAux]
    rcases List.mem_cons.mp hd with h' | h'
    · subst h'
      rw [if_neg (by simp [h]), ]
      exact addDefaultsAux_preserves_some
        (by rw [jsGetField_append_right h]; simp [jsGetField])
    · have hne : d'.1 ≠ d.1 := by
        intro e
        exact (List.nodup_cons.mp hnd).1 (e ▸ List.mem_map.mpr ⟨d, h', rfl⟩)
      by_cases hs : (jsGetField acc d'.1).isSome
      · rw [if_pos hs]
        exact ih (List.nodup_cons.mp hnd).2 h' h
      · rw [if_neg hs]
        refine ih (List.nodup_cons.mp hnd).2 h' ?_
        rw [jsGetField_append_right h]
        simp [jsGetField, hne]

theorem addDefaultsAux_id {acc : List (String × JValue)}
    {ds : List (String × JValue)}
    (h : ∀ d ∈ ds, (jsGetField acc d.1).isSome) :
    addDefaultsAux acc ds = acc := by
  induction ds with
  | nil => rfl
  | cons d rest ih =>
    simp only [addDefaultsAux]
    rw [if_pos (h d (List.mem_cons_self _ _))]
    exact ih fun q hq => h q (List.mem_cons_of_mem _ hq)

/-! Filter-frame lemmas: inserting or removing an element that a predicate
rejects does not change the filtered list. -/

theorem filter_jsInsert_neg {p : String → Bool} {l : List String} {i : Nat} {x : String}
    (hx : p x = false) : (jsInsert l i x).filter p = l.filter p := by
  unfold jsInsert
  rw [List.filter_append, List.filter_cons_of_neg (by simp [hx])]
  rw [← List.filter_append, List.take_append_drop]

theorem filter_jsRemove_at {p : String → Bool} {l : List String} {x : String}
    (hmem : x ∈ l) (hx : p x = false) :
    (jsRemove l (jsIndexOf l x)).filter p = l.filter p := by
  unfold jsRemove
  conv_rhs => rw [jsIndexOf_decomp hmem]
  rw [List.filter_append, List.filter_append, List.filter_cons_of_neg (by simp [hx])]

theorem sublist_jsRemove_at {s l : List String} {x : String}
    (hs : List.Sublist s l) (hmem : x ∈ l) (hx : x ∉ s) :
    List.Sublist s (jsRemove l (jsIndexOf l x)) := by
  have h1 : s.filter (fun y => decide (y ≠ x)) = s :=
    List.filter_eq_self.mpr fun a ha => by
      simp only [decide_eq_true_eq]
      exact fun e => hx (e ▸ ha)
  have h2 : List.Sublist (l.filter fun y => decide (y ≠ x))
      (jsRemove l (jsIndexOf l x)) := by
    unfold jsRemove
    conv_lhs => rw [jsIndexOf_decomp hmem]
    rw [List.filter_append, List.filter_cons_of_neg (by simp)]
    exact List.Sublist.append (List.filter_sublist _) (List.filter_sublist _)
  have h3 := hs.filter (fun y => decide (y ≠ x))
  rw [h1] at h3
  exact h3.trans h2

/-! Further index lemmas used by the placement proofs. -/

theorem occCount_tail_le {x : String} {l : List String} :
    occCount x (l.drop 1) ≤ occCount x l := by
  cases l with
  | nil => simp
  | cons y t =>
    show occCount x t ≤ (if y = x then 1 else 0) + occCount x t
    exact Nat.le_add_left _ _

theorem occCount_jsRemove_le {x : String} {l : List String} {i : Nat} :
    occCount x (jsRemove l i) ≤ occCount x l := by
  unfold jsRemove
  rw [occCount_append]
  conv_rhs => rw [← List.take_append_drop i l, occCount_append]
  have h : occCount x (l.drop (i + 1)) ≤ occCount x (l.drop i) := by
    have : l.drop (i + 1) = (l.drop i).drop 1 := by
      rw [List.drop_drop]
    rw [this]
    exact occCount_tail_le
  omega

theorem mem_take_of_jsIndexOf_lt {x : String} {l : List String} {n : Nat}
    (hx : x ∈ l) (h : jsIndexOf l x < n) : x ∈ l.take n := by
  induction l generalizing n with
  | nil => cases hx
  | cons y t ih =>
    cases n with
    | zero => omega
    | succ m =>
      by_cases hyx : y = x
      · rw [List.take_succ_cons, hyx]
        exact List.mem_cons_self _ _
      · rcases List.mem_cons.mp hx with h' | h'
        · exact absurd h'.symm hyx
        · rw [jsIndexOf_cons_ne hyx] at h
          exact List.mem_cons_of_mem _ (ih h' (Nat.lt_of_succ_lt_succ h))

theorem jsIndexOf_take_eq {x : String} {l : List String} {n : Nat}
    (hx : x ∈ l) (h : jsIndexOf l x < n) :
    jsIndexOf (l.take n) x = jsIndexOf l x := by
  conv_rhs => rw [← List.take_append_drop n l]
  rw [jsIndexOf_append_left (mem_take_of_jsIndexOf_lt hx h)]

theorem mem_drop_of_le_jsIndexOf {x : String} {l : List String} {n : Nat}
    (hx : x ∈ l) (h : n ≤ jsIndexOf l x) : x ∈ l.drop n := by
  have h1 : x ∉ l.take n := not_mem_take_of_le_jsIndexOf h
  rw [← List.take_append_drop n l] at hx
  rcases List.mem_append.mp hx with h' | h'
  · exact absurd h' h1
  · exact h'

theorem jsRemove_of_not_mem {y : String} {l : List String} (h : y ∉ l) :
    jsRemove l (jsIndexOf l y) = l := by
  rw [jsIndexOf_of_not_mem h]
  unfold jsRemove
  rw [List.take_length, List.drop_eq_nil_of_le (by omega), List.append_nil]

theorem mem_jsRemove_of_ne {x y : String} {l : List String}
    (hx : x ∈ l) (hne : x ≠ y) : x ∈ jsRemove l (jsIndexOf l y) := by
  by_cases hy : y ∈ l
  · unfold jsRemove
    rw [jsIndexOf_decomp hy] at hx
    rcases List.mem_append.mp hx with h' | h'
    · exact List.mem_append.mpr (Or.inl h')
    · rcases List.mem_cons.mp h' with h'' | h''
      · exact absurd h'' hne
      · exact List.mem_append.mpr (Or.inr h'')
  · rw [jsRemove_of_not_mem hy]
    exact hx

theorem mem_jsRemove_gt {x : String} {l : List String} {i : Nat}
    (hx : x ∈ l) (h : jsIndexOf l x < i) : x ∈ jsRemove l i := by
  unfold jsRemove
  exact List.mem_append.mpr (Or.inl (mem_take_of_jsIndexOf_lt hx h))

theorem jsIndexOf_jsRemove_gt {x : String} {l : List String} {i : Nat}
    (hx : x ∈ l) (h : jsIndexOf l x < i) :
    jsIndexOf (jsRemove l i) x = jsIndexOf l x := by
  unfold jsRemove
  rw [jsIndexOf_append_left (mem_take_of_jsIndexOf_lt hx h)]
  exact jsIndexOf_take_eq hx h

theorem jsIndexOf_succ_lt_of_getLast {a b : String} {l : List String}
    (hlast : l.getLast? = some b) (hne : a ≠ b) (ha : a ∈ l) :
    jsIndexOf l a + 1 < l.length := by
  have hlen : (l.take (jsIndexOf l a)).length = jsIndexOf l a := by
    rw [List.length_take]
    exact Nat.min_eq_left (Nat.le_of_lt (jsIndexOf_lt_length ha))
  rcases hd : l.drop (jsIndexOf l a + 1) with _ | ⟨c, cs⟩
  · exfalso
    have hdec := jsIndexOf_decomp ha
    rw [hd] at hdec
    rw [hdec, List.getLast?_concat] at hlast
    exact hne (Option.some.inj hlast)
  · have hl := congrArg List.length (jsIndexOf_decomp ha)
    rw [List.length_append, hd] at hl
    simp only [List.length_cons] at hl
    omega

theorem getElem?_jsIndexOf {x : String} {l : List String} (hx : x ∈ l) :
    l[jsIndexOf l x]? = some x := by
  have key : ∀ i, jsIndexOf l x = i → l[i]? = some x := by
    intro i hi
    have hlen : (l.take i).length = i := by
      rw [List.length_take]
      exact Nat.min_eq_left (Nat.le_of_lt (hi ▸ jsIndexOf_lt_length hx))
    have hdec : l = l.take i ++ x :: l.drop (i + 1) := by
      rw [← hi]
      exact jsIndexOf_decomp hx
    conv_lhs => rw [hdec]
    rw [List.getElem?_append_right (by omega), hlen, Nat.sub_self]
    simp
  exact key _ rfl

theorem take_succ_jsIndexOf {x : String} {l : List String} (hx : x ∈ l) :
    l.take (jsIndexOf l x + 1) = l.take (jsIndexOf l x) ++ [x] := by
  rw [List.take_succ, getElem?_jsIndexOf hx]
  rfl

/-! Adjacency preservation: inserting or removing a first occurrence of a
string other than `a`/`b` keeps an adjacent pair `a :: b` (with `a`, `b`
not occurring earlier) adjacent. -/

theorem adj_index_ne {l l₁ l₂ : List String} {a b x : String}
    (hdec : l = l₁ ++ a :: b :: l₂)
    (hx : x ∈ l) (hxa : x ≠ a) (hxb : x ≠ b) :
    jsIndexOf l x ≠ l₁.length ∧ jsIndexOf l x ≠ l₁.length + 1 := by
  have hdrop := drop_jsIndexOf hx
  constructor
  · intro he
    have h1 : l.drop l₁.length = a :: b :: l₂ := by
      rw [hdec, List.drop_left' rfl]
    rw [he, h1] at hdrop
    exact hxa (List.cons.inj hdrop).1.symm
  · intro he
    have h1 : l.drop (l₁.length + 1) = b :: l₂ := by
      rw [hdec, show l₁ ++ a :: b :: l₂ = (l₁ ++ [a]) ++ b :: l₂ by simp,
        List.drop_left' (by simp)]
    rw [he, h1] at hdrop
    exact hxb (List.cons.inj hdrop).1.symm

theorem adj_insert_aux {l₁ l₂ : List String} {a b y : String} {i : Nat}
    (ha : a ∉ l₁) (hb : b ∉ l₁) (hya : y ≠ a) (hyb : y ≠ b)
    (hne1 : i ≠ l₁.length) (hne2 : i ≠ l₁.length + 1) :
    ∃ m₁ m₂, jsInsert (l₁ ++ a :: b :: l₂) i y = m₁ ++ a :: b :: m₂
      ∧ a ∉ m₁ ∧ b ∉ m₁ := by
  rcases Nat.lt_or_ge i l₁.length with hik | hik
  · have htake : (l₁ ++ a :: b :: l₂).take i = l₁.take i := by
      rw [List.take_append_eq_append_take, show i - l₁.length = 0 by omega]
      simp
    have hdrop : (l₁ ++ a :: b :: l₂).drop i = l₁.drop i ++ a :: b :: l₂ := by
      rw [List.drop_append_eq_append_drop, show i - l₁.length = 0 by omega]
      simp
    refine ⟨l₁.take i ++ y :: l₁.drop i, l₂, ?_, ?_, ?_⟩
    · unfold jsInsert
      rw [htake, hdrop]
      simp
    · simp only [List.mem_append, List.mem_cons]
      rintro (h' | h' | h')
      · exact ha (List.take_subset _ _ h')
      · exact hya h'.symm
      · exact ha (List.drop_subset _ _ h')
    · simp only [List.mem_append, List.mem_cons]
      rintro (h' | h' | h')
      · exact hb (List.take_subset _ _ h')
      · exact hyb h'.symm
      · exact hb (List.drop_subset _ _ h')
  · have hik2 : l₁.length + 1 < i := by omega
    have h2 : i - l₁.length = (i - l₁.length - 2) + 1 + 1 := by omega
    have htake : (l₁ ++ a :: b :: l₂).take i
        = l₁ ++ a :: b :: l₂.take (i - l₁.length - 2) := by
      rw [List.take_append_eq_append_take, List.take_of_length_le (by omega), h2]
      simp
    have hdrop : (l₁ ++ a :: b :: l₂).drop i = l₂.drop (i - l₁.length - 2) := by
      rw [List.drop_append_eq_append_drop, List.drop_eq_nil_of_le (by omega), h2]
      simp
    refine ⟨l₁, l₂.take (i - l₁.length - 2) ++ y :: l₂.drop (i - l₁.length - 2),
      ?_, ha, hb⟩
    unfold jsInsert
    rw [htake, hdrop]
    simp

theorem adj_remove_aux {l₁ l₂ : List String} {a b : String} {i : Nat}
    (ha : a ∉ l₁) (hb : b ∉ l₁)
    (hne1 : i ≠ l₁.length) (hne2 : i ≠ l₁.length + 1) :
    ∃ m₁ m₂, jsRemove (l₁ ++ a :: b :: l₂) i = m₁ ++ a :: b :: m₂
      ∧ a ∉ m₁ ∧ b ∉ m₁ := by
  rcases Nat.lt_or_ge i l₁.length with hik | hik
  · have htake : (l₁ ++ a :: b :: l₂).take i = l₁.take i := by
      rw [List.take_append_eq_append_take, show i - l₁.length = 0 by omega]
      simp
    have hdrop : (l₁ ++ a :: b :: l₂).drop (i + 1)
        = l₁.drop (i + 1) ++ a :: b :: l₂ := by
      rw [List.drop_append_eq_append_drop, show i + 1 - l₁.length = 0 by omega]
      simp
    refine ⟨l₁.take i ++ l₁.drop (i + 1), l₂, ?_, ?_, ?_⟩
    · unfold jsRemove
      rw [htake, hdrop]
      simp
    · simp only [List.mem_append]
      rintro (h' | h')
      · exact ha (List.take_subset _ _ h')
      · exact ha (List.drop_subset _ _ h')
    · simp only [List.mem_append]
      rintro (h' | h')
      · exact hb (List.take_subset _ _ h')
      · exact hb (List.drop_subset _ _ h')
  · have hik2 : l₁.length + 1 < i := by omega
    have h2 : i - l₁.length = (i - l₁.length - 2) + 1 + 1 := by omega
    have h3 : i + 1 - l₁.length = (i - l₁.length - 1) + 1 + 1 := by omega
    have htake : (l₁ ++ a :: b :: l₂).take i
        = l₁ ++ a :: b :: l₂.take (i - l₁.length - 2) := by
      rw [List.take_append_eq_append_take, List.take_of_length_le (by omega), h2]
      simp
    have hdrop : (l₁ ++ a :: b :: l₂).drop (i + 1)
        = l₂.drop (i - l₁.length - 1) := by
      rw [List.drop_append_eq_append_drop, List.drop_eq_nil_of_le (by omega), h3]
      simp
    refine ⟨l₁, l₂.take (i - l₁.length - 2) ++ l₂.drop (i - l₁.length - 1),
      ?_, ha, hb⟩
    unfold jsRemove
    rw [htake, hdrop]
    simp

theorem adj_jsInsert {l l₁ l₂ : List String} {a b x y : String}
    (hdec : l = l₁ ++ a :: b :: l₂) (ha : a ∉ l₁) (hb : b ∉ l₁)
    (hx : x ∈ l) (hxa : x ≠ a) (hxb : x ≠ b) (hya : y ≠ a) (hyb : y ≠ b) :
    ∃ m₁ m₂, jsInsert l (jsIndexOf l x) y = m₁ ++ a :: b :: m₂
      ∧ a ∉ m₁ ∧ b ∉ m₁ := by
  obtain ⟨hne1, hne2⟩ := adj_index_ne hdec hx hxa hxb
  subst hdec
  exact adj_insert_aux ha hb hya hyb hne1 hne2

theorem adj_jsRemove {l l₁ l₂ : List String} {a b x : String}
    (hdec : l = l₁ ++ a :: b :: l₂) (ha : a ∉ l₁) (hb : b ∉ l₁)
    (hx : x ∈ l) (hxa : x ≠ a) (hxb : x ≠ b) :
    ∃ m₁ m₂, jsRemove l (jsIndexOf l x) = m₁ ++ a :: b :: m₂
      ∧ a ∉ m₁ ∧ b ∉ m₁ := by
  obtain ⟨hne1, hne2⟩ := adj_index_ne hdec hx hxa hxb
  subst hdec
  exact adj_remove_aux ha hb hne1 hne2

/-! Stage lemmas: hero placement. -/

theorem exists_cons_of_head {a : String} {l : List String}
    (h : l.head? = some a) : ∃ t, l = a :: t := by
  cases l with
  | nil => cases h
  | cons y t =>
    simp only [List.head?_cons, Option.some.injEq] at h
    exact ⟨t, by rw [h]⟩

theorem fixHero_head (l : List String) : (fixHero l).head? = some "hero" := by
  unfold fixHero
  by_cases h1 : "hero" ∈ l
  · rw [if_neg (not_not_intro h1)]
    by_cases h2 : l.head? = some "hero"
    · rw [if_neg (not_not_intro h2)]
      exact h2
    · rw [if_pos h2]
      simp
  · rw [if_pos h1]
    simp

theorem fixFooter_cons (t : List String) :
    ∃ t', fixFooter ("hero" :: t) = "hero" :: t' := by
  unfold fixFooter
  by_cases h1 : "footer" ∈ ("hero" :: t)
  · rw [if_neg (not_not_intro h1)]
    by_cases h2 : ("hero" :: t).getLast? = some "footer"
    · rw [if_neg (not_not_intro h2)]
      exact ⟨t, rfl⟩
    · rw [if_pos h2]
      refine ⟨t.filter (fun s => s ≠ "footer") ++ ["footer"], ?_⟩
      rw [List.filter_cons_of_pos (by decide)]
      simp
  · rw [if_pos h1]
    exact ⟨t ++ ["footer"], by simp⟩

theorem fixSignature_cons (t : List String) :
    ∃ t', fixSignature ("hero" :: t) = "hero" :: t' := by
  unfold fixSignature
  have hh : ("hero" : String) ≠ "signature" := by decide
  have hf : ("hero" : String) ≠ "footer" := by decide
  by_cases h1 : "signature" ∈ ("hero" :: t)
  · rw [if_neg (not_not_intro h1)]
    by_cases h2 : jsIndexOf ("hero" :: t) "signature" > jsIndexOf ("hero" :: t) "footer"
    · rw [if_pos h2]
      rw [jsIndexOf_cons_ne hh, jsRemove_cons_succ, jsIndexOf_cons_ne hf,
        jsInsert_cons_succ]
      exact ⟨_, rfl⟩
    · rw [if_neg h2]
      exact ⟨t, rfl⟩
  · rw [if_pos h1]
    rw [jsIndexOf_cons_ne hf, jsInsert_cons_succ]
    exact ⟨_, rfl⟩

theorem fixCardsLight_cons (t : List String) (w : Bool) :
    ∃ t', fixCardsLight ("hero" :: t) w = "hero" :: t' := by
  unfold fixCardsLight
  have hc : ("hero" : String) ≠ "six-summary-cards" := by decide
  have hs : ("hero" : String) ≠ "simple-body" := by decide
  by_cases hw : w = true
  · rw [if_pos hw]
    by_cases h1 : "six-summary-cards" ∉ ("hero" :: t) ∧ "simple-body" ∈ ("hero" :: t)
    · rw [if_pos h1, jsIndexOf_cons_ne hs, jsInsert_cons_succ]
      exact ⟨_, rfl⟩
    · rw [if_neg h1]
      by_cases h2 : "six-summary-cards" ∈ ("hero" :: t) ∧ "simple-body" ∈ ("hero" :: t)
          ∧ jsIndexOf ("hero" :: t) "six-summary-cards"
            ≠ jsIndexOf ("hero" :: t) "simple-body" + 1
      · rw [if_pos h2, jsIndexOf_cons_ne hc, jsRemove_cons_succ,
          jsIndexOf_cons_ne hs, jsInsert_cons_succ]
        exact ⟨_, rfl⟩
      · rw [if_neg h2]
        exact ⟨t, rfl⟩
  · rw [if_neg hw]
    by_cases h3 : "six-summary-cards" ∈ ("hero" :: t)
    · rw [if_pos h3, jsIndexOf_cons_ne hc, jsRemove_cons_succ]
      exact ⟨_, rfl⟩
    · rw [if_neg h3]
      exact ⟨t, rfl⟩

theorem postProcessSequence_head (seq : List String) (w : Bool)
    (avail : List String) :
    (postProcessSequence seq w avail).head? = some "hero" := by
  unfold postProcessSequence
  obtain ⟨t1, h1⟩ := exists_cons_of_head (fixHero_head (filterAvailable seq avail))
  rw [h1]
  obtain ⟨t2, h2⟩ := fixFooter_cons t1
  rw [h2]
  obtain ⟨t3, h3⟩ := fixSignature_cons t2
  rw [h3]
  obtain ⟨t4, h4⟩ := fixCardsLight_cons t3 w
  rw [h4]
  simp

/-! Stage lemmas: membership of a string the stage never touches. -/

theorem mem_fixHero_iff {x : String} {l : List String} (hx : x ≠ "hero") :
    x ∈ fixHero l ↔ x ∈ l := by
  unfold fixHero
  by_cases h1 : "hero" ∈ l
  · rw [if_neg (not_not_intro h1)]
    by_cases h2 : l.head? = some "hero"
    · rw [if_neg (not_not_intro h2)]
    · rw [if_pos h2]
      simp only [List.mem_cons, List.mem_filter, decide_eq_true_eq]
      constructor
      · rintro (h' | ⟨h', _⟩)
        · exact absurd h' hx
        · exact h'
      · intro h'
        exact Or.inr ⟨h', hx⟩
  · rw [if_pos h1]
    simp only [List.mem_cons]
    constructor
    · rintro (h' | h')
      · exact absurd h' hx
      · exact h'
    · exact Or.inr

theorem mem_fixFooter_iff {x : String} {l : List String} (hx : x ≠ "footer") :
    x ∈ fixFooter l ↔ x ∈ l := by
  unfold fixFooter
  by_cases h1 : "footer" ∈ l
  · rw [if_neg (not_not_intro h1)]
    by_cases h2 : l.getLast? = some "footer"
    · rw [if_neg (not_not_intro h2)]
    · rw [if_pos h2]
      simp only [List.mem_append, List.mem_filter, List.mem_cons, decide_eq_true_eq]
      constructor
      · rintro (⟨h', _⟩ | h' | h')
        · exact h'
        · exact absurd h' hx
        · cases h'
      · intro h'
        exact Or.inl ⟨h', hx⟩
  · rw [if_pos h1]
    simp only [List.mem_append, List.mem_cons]
    constructor
    · rintro (h' | h' | h')
      · exact h'
      · exact absurd h' hx
      · cases h'
    · exact Or.inl

theorem mem_fixSignature_iff {x : String} {l : List String} (hx : x ≠ "signature") :
    x ∈ fixSignature l ↔ x ∈ l := by
  unfold fixSignature
  by_cases h1 : "signature" ∈ l
  · rw [if_neg (not_not_intro h1)]
    by_cases h2 : jsIndexOf l "signature" > jsIndexOf l "footer"
    · rw [if_pos h2]
      show x ∈ jsInsert _ _ _ ↔ _
      rw [mem_jsInsert]
      constructor
      · rintro (h' | h')
        · exact absurd h' hx
        · exact mem_of_mem_jsRemove h'
      · intro h'
        exact Or.inr (mem_jsRemove_of_ne h' hx)
    · rw [if_neg h2]
  · rw [if_pos h1]
    rw [mem_jsInsert]
    constructor
    · rintro (h' | h')
      · exact absurd h' hx
      · exact h'
    · exact Or.inr

/-! Stage lemmas: identity on already-conforming sequences. -/

theorem fixHero_id {l : List String} (h : l.head? = some "hero") :
    fixHero l = l := by
  obtain ⟨t, ht⟩ := exists_cons_of_head h
  unfold fixHero
  rw [if_neg (not_not_intro (by rw [ht]; exact List.mem_cons_self _ _)),
    if_neg (not_not_intro h)]

theorem fixFooter_id {l : List String} (h : l.getLast? = some "footer") :
    fixFooter l = l := by
  have hmem : "footer" ∈ l := List.mem_of_mem_getLast? (by rw [h]; rfl)
  unfold fixFooter
  rw [if_neg (not_not_intro hmem), if_neg (not_not_intro h)]

theorem fixSignature_id {l : List String} (h1 : "signature" ∈ l)
    (h2 : ¬ jsIndexOf l "signature" > jsIndexOf l "footer") :
    fixSignature l = l := by
  unfold fixSignature
  rw [if_neg (not_not_intro h1), if_neg h2]

/-! Stage lemmas: the filtered view through a predicate rejecting the
special section ids is untouched by every placement step. -/

theorem filter_comm_neutral {p : String → Bool} {c : String} (hp : p c = false)
    (l : List String) :
    (l.filter fun s => decide (s ≠ c)).filter p = l.filter p := by
  rw [List.filter_filter]
  refine List.filter_congr fun a _ => ?_
  by_cases hc : a = c
  · subst hc
    simp [hp]
  · simp [hc]

theorem filter_singleton_neg {p : String → Bool} {c : String} (hp : p c = false) :
    [c].filter p = [] := by
  rw [List.filter_cons_of_neg (by simp [hp])]
  rfl

theorem filter_fixHero {p : String → Bool} {l : List String}
    (hp : p "hero" = false) : (fixHero l).filter p = l.filter p := by
  unfold fixHero
  by_cases h1 : "hero" ∈ l
  · rw [if_neg (not_not_intro h1)]
    by_cases h2 : l.head? = some "hero"
    · rw [if_neg (not_not_intro h2)]
    · rw [if_pos h2, List.filter_cons_of_neg (by simp [hp]), filter_comm_neutral hp]
  · rw [if_pos h1, List.filter_cons_of_neg (by simp [hp])]

theorem filter_fixFooter {p : String → Bool} {l : List String}
    (hp : p "footer" = false) : (fixFooter l).filter p = l.filter p := by
  unfold fixFooter
  by_cases h1 : "footer" ∈ l
  · rw [if_neg (not_not_intro h1)]
    by_cases h2 : l.getLast? = some "footer"
    · rw [if_neg (not_not_intro h2)]
    · rw [if_pos h2, List.filter_append, filter_singleton_neg hp,
        List.append_nil, filter_comm_neutral hp]
  · rw [if_pos h1, List.filter_append, filter_singleton_neg hp, List.append_nil]

theorem filter_fixSignature {p : String → Bool} {l : List String}
    (hp : p "signature" = false) : (fixSignature l).filter p = l.filter p := by
  unfold fixSignature
  by_cases h1 : "signature" ∈ l
  · rw [if_neg (not_not_intro h1)]
    by_cases h2 : jsIndexOf l "signature" > jsIndexOf l "footer"
    · rw [if_pos h2, filter_jsInsert_neg hp, filter_jsRemove_at h1 hp]
    · rw [if_neg h2]
  · rw [if_pos h1, filter_jsInsert_neg hp]

theorem filter_fixCardsLight {p : String → Bool} {l : List String} {w : Bool}
    (hp : p "six-summary-cards" = false) :
    (fixCardsLight l w).filter p = l.filter p := by
  unfold fixCardsLight
  by_cases hw : w = true
  · rw [if_pos hw]
    by_cases h1 : "six-summary-cards" ∉ l ∧ "simple-body" ∈ l
    · rw [if_pos h1, filter_jsInsert_neg hp]
    · rw [if_neg h1]
      by_cases h2 : "six-summary-cards" ∈ l ∧ "simple-body" ∈ l
          ∧ jsIndexOf l "six-summary-cards" ≠ jsIndexOf l "simple-body" + 1
      · rw [if_pos h2, filter_jsInsert_neg hp, filter_jsRemove_at h2.1 hp]
      · rw [if_neg h2]
  · rw [if_neg hw]
    by_cases h3 : "six-summary-cards" ∈ l
    · rw [if_pos h3, filter_jsRemove_at h3 hp]
    · rw [if_neg h3]

theorem filter_fixCardsFull {p : String → Bool} {l : List String}
    {slots : List (String × JValue)} (hp : p "six-summary-cards" = false) :
    ((fixCardsFull l slots).1).filter p = l.filter p := by
  unfold fixCardsFull
  by_cases hw : planHasCards slots = true
  · rw [if_pos hw]
    by_cases h1 : "six-summary-cards" ∉ l ∧ "simple-body" ∈ l
    · rw [if_pos h1]
      exact filter_jsInsert_neg hp
    · rw [if_neg h1]
      by_cases h2 : "six-summary-cards" ∈ l ∧ "simple-body" ∈ l
          ∧ jsIndexOf l "six-summary-cards" ≠ jsIndexOf l "simple-body" + 1
      · rw [if_pos h2]
        show (jsInsert (jsRemove l _) _ _).filter p = _
        rw [filter_jsInsert_neg hp, filter_jsRemove_at h2.1 hp]
      · rw [if_neg h2]
  · rw [if_neg hw]
    by_cases h3 : "six-summary-cards" ∈ l
    · rw [if_pos h3]
      exact filter_jsRemove_at h3 hp
    · rw [if_neg h3]

theorem filter_fixSignatureFull {p : String → Bool} {l : List String}
    {slots : List (String × JValue)} (hp : p "signature" = false) :
    ((fixSignatureFull l slots).1).filter p = l.filter p := by
  unfold fixSignatureFull
  by_cases h1 : "signature" ∉ l ∧ "footer" ∈ l
  · rw [if_pos h1]
    exact filter_jsInsert_neg hp
  · rw [if_neg h1]
    by_cases h2 : "signature" ∈ l ∧ "footer" ∈ l
        ∧ jsIndexOf l "signature" > jsIndexOf l "footer"
    · rw [if_pos h2]
      show (jsInsert (jsRemove l _) _ _).filter p = _
      rw [filter_jsInsert_neg hp, filter_jsRemove_at h2.1 hp]
    · rw [if_neg h2]

theorem postProcessSequence_filter_frame {p : String → Bool}
    (seq : List String) (w : Bool) (avail : List String)
    (hp1 : p "hero" = false) (hp2 : p "footer" = false)
    (hp3 : p "signature" = false) (hp4 : p "six-summary-cards" = false) :
    (postProcessSequence seq w avail).filter p
      = (filterAvailable seq avail).filter p := by
  unfold postProcessSequence
  rw [filter_fixCardsLight hp4, filter_fixSignature hp3, filter_fixFooter hp2,
    filter_fixHero hp1]

theorem attemptPlanFixups_filter_frame {p : String → Bool}
    (seq : List String) (slots : List (String × JValue)) (avail : List String)
    (hp3 : p "signature" = false) (hp4 : p "six-summary-cards" = false) :
    ((attemptPlanFixups seq slots avail).1).filter p
      = (filterAvailable seq avail).filter p := by
  unfold attemptPlanFixups
  rw [filter_fixSignatureFull hp3, filter_fixCardsFull hp4]

/-! Stage lemmas: footer-last and signature-before-footer. -/

theorem sublist_append_of_right {s l₁ l₂ : List String}
    (h : List.Sublist s l₂) : List.Sublist s (l₁ ++ l₂) := by
  simpa using List.Sublist.append (List.nil_sublist l₁) h

theorem fixFooter_getLast (l : List String) :
    (fixFooter l).getLast? = some "footer" := by
  unfold fixFooter
  by_cases h1 : "footer" ∈ l
  · rw [if_neg (not_not_intro h1)]
    by_cases h2 : l.getLast? = some "footer"
    · rw [if_neg (not_not_intro h2)]
      exact h2
    · rw [if_pos h2]
      exact List.getLast?_concat _
  · rw [if_pos h1]
    exact List.getLast?_concat _

theorem sublist_sig_insert {m : List String} (hmem : "footer" ∈ m) :
    List.Sublist ["signature", "footer"]
      (jsInsert m (jsIndexOf m "footer") "signature") := by
  have hout : jsInsert m (jsIndexOf m "footer") "signature"
      = m.take (jsIndexOf m "footer")
        ++ "signature" :: "footer" :: m.drop (jsIndexOf m "footer" + 1) := by
    unfold jsInsert
    rw [drop_jsIndexOf hmem]
  rw [hout]
  exact sublist_append_of_right
    (List.cons_sublist_cons.mpr (List.cons_sublist_cons.mpr (List.nil_sublist _)))

theorem sublist_sig_of_lt {m : List String} (hsig : "signature" ∈ m)
    (hf : "footer" ∈ m)
    (hlt : jsIndexOf m "signature" < jsIndexOf m "footer") :
    List.Sublist ["signature", "footer"] m := by
  have hfd : "footer" ∈ m.drop (jsIndexOf m "signature" + 1) :=
    mem_drop_of_le_jsIndexOf hf (by omega)
  have h : List.Sublist ["signature", "footer"]
      (m.take (jsIndexOf m "signature")
        ++ "signature" :: m.drop (jsIndexOf m "signature" + 1)) :=
    sublist_append_of_right
      (List.cons_sublist_cons.mpr (List.singleton_sublist.mpr hfd))
  rw [← jsIndexOf_decomp hsig] at h
  exact h

theorem jsIndexOf_sig_ne_footer {l : List String} (h1 : "signature" ∈ l)
    (h2 : "footer" ∈ l) : jsIndexOf l "signature" ≠ jsIndexOf l "footer" := by
  intro he
  have d1 := drop_jsIndexOf h1
  have d2 := drop_jsIndexOf h2
  rw [he, d2] at d1
  exact absurd (List.cons.inj d1).1 (by decide)

theorem fixSignature_spec {l : List String} (hmem : "footer" ∈ l)
    (hlast : l.getLast? = some "footer") :
    List.Sublist ["signature", "footer"] (fixSignature l)
      ∧ (fixSignature l).getLast? = some "footer" := by
  unfold fixSignature
  by_cases h1 : "signature" ∈ l
  · rw [if_neg (not_not_intro h1)]
    by_cases h2 : jsIndexOf l "signature" > jsIndexOf l "footer"
    · rw [if_pos h2]
      have hfr : "footer" ∈ jsRemove l (jsIndexOf l "signature") :=
        mem_jsRemove_gt hmem h2
      have hsucc : jsIndexOf l "signature" + 1 < l.length :=
        jsIndexOf_succ_lt_of_getLast hlast (by decide) h1
      have hlr : (jsRemove l (jsIndexOf l "signature")).getLast? = some "footer" := by
        rw [getLast?_jsRemove hsucc]
        exact hlast
      refine ⟨sublist_sig_insert hfr, ?_⟩
      rw [getLast?_jsInsert (jsIndexOf_lt_length hfr)]
      exact hlr
    · rw [if_neg h2]
      have hne := jsIndexOf_sig_ne_footer h1 hmem
      exact ⟨sublist_sig_of_lt h1 hmem (by omega), hlast⟩
  · rw [if_pos h1]
    refine ⟨sublist_sig_insert hmem, ?_⟩
    rw [getLast?_jsInsert (jsIndexOf_lt_length hmem)]
    exact hlast

theorem fixCardsLight_pres {l : List String} {w : Bool}
    (hsub : List.Sublist ["signature", "footer"] l)
    (hlast : l.getLast? = some "footer") :
    List.Sublist ["signature", "footer"] (fixCardsLight l w)
      ∧ (fixCardsLight l w).getLast? = some "footer" := by
  unfold fixCardsLight
  by_cases hw : w = true
  · rw [if_pos hw]
    by_cases h1 : "six-summary-cards" ∉ l ∧ "simple-body" ∈ l
    · rw [if_pos h1]
      have hsucc : jsIndexOf l "simple-body" + 1 < l.length :=
        jsIndexOf_succ_lt_of_getLast hlast (by decide) h1.2
      refine ⟨sublist_jsInsert hsub, ?_⟩
      rw [getLast?_jsInsert hsucc]
      exact hlast
    · rw [if_neg h1]
      by_cases h2 : "six-summary-cards" ∈ l ∧ "simple-body" ∈ l
          ∧ jsIndexOf l "six-summary-cards" ≠ jsIndexOf l "simple-body" + 1
      · rw [if_pos h2]
        have hsucc : jsIndexOf l "six-summary-cards" + 1 < l.length :=
          jsIndexOf_succ_lt_of_getLast hlast (by decide) h2.1
        have hsubr : List.Sublist ["signature", "footer"]
            (jsRemove l (jsIndexOf l "six-summary-cards")) :=
          sublist_jsRemove_at hsub h2.1 (by decide)
        have hlr : (jsRemove l (jsIndexOf l "six-summary-cards")).getLast?
            = some "footer" := by
          rw [getLast?_jsRemove hsucc]
          exact hlast
        have hsbr : "simple-body" ∈ jsRemove l (jsIndexOf l "six-summary-cards") :=
          mem_jsRemove_of_ne h2.2.1 (by decide)
        have hsucc2 : jsIndexOf (jsRemove l (jsIndexOf l "six-summary-cards"))
            "simple-body" + 1
            < (jsRemove l (jsIndexOf l "six-summary-cards")).length :=
          jsIndexOf_succ_lt_of_getLast hlr (by decide) hsbr
        refine ⟨sublist_jsInsert hsubr, ?_⟩
        rw [getLast?_jsInsert hsucc2]
        exact hlr
      · rw [if_neg h2]
        exact ⟨hsub, hlast⟩
  · rw [if_neg hw]
    by_cases h3 : "six-summary-cards" ∈ l
    · rw [if_pos h3]
      have hsucc : jsIndexOf l "six-summary-cards" + 1 < l.length :=
        jsIndexOf_succ_lt_of_getLast hlast (by decide) h3
      refine ⟨sublist_jsRemove_at hsub h3 (by decide), ?_⟩
      rw [getLast?_jsRemove hsucc]
      exact hlast
    · rw [if_neg h3]
      exact ⟨hsub, hlast⟩

theorem postProcessSequence_footer_spec (seq : List String) (w : Bool)
    (avail : List String) :
    (postProcessSequence seq w avail).getLast? = some "footer"
      ∧ List.Sublist ["signature", "footer"]
          (postProcessSequence seq w avail) := by
  unfold postProcessSequence
  have hlast2 := fixFooter_getLast (fixHero (filterAvailable seq avail))
  have hmem2 : "footer" ∈ fixFooter (fixHero (filterAvailable seq avail)) :=
    List.mem_of_mem_getLast? (by rw [hlast2]; rfl)
  obtain ⟨hsub3, hlast3⟩ := fixSignature_spec hmem2 hlast2
  obtain ⟨hsub4, hlast4⟩ := fixCardsLight_pres hsub3 hlast3
  exact ⟨hlast4, hsub4⟩

theorem fixSignatureFull_sig_before_footer {seq : List String}
    {slots : List (String × JValue)} (hf : "footer" ∈ seq) :
    List.Sublist ["signature", "footer"] (fixSignatureFull seq slots).1 := by
  unfold fixSignatureFull
  by_cases h1 : "signature" ∉ seq ∧ "footer" ∈ seq
  · rw [if_pos h1]
    exact sublist_sig_insert hf
  · rw [if_neg h1]
    have hsig : "signature" ∈ seq := by
      by_contra hc
      exact h1 ⟨hc, hf⟩
    by_cases h2 : "signature" ∈ seq ∧ "footer" ∈ seq
        ∧ jsIndexOf seq "signature" > jsIndexOf seq "footer"
    · rw [if_pos h2]
      show List.Sublist _ (jsInsert (jsRemove seq _) (jsIndexOf seq "footer") _)
      rw [← jsIndexOf_jsRemove_gt hf h2.2.2]
      exact sublist_sig_insert (mem_jsRemove_gt hf h2.2.2)
    · rw [if_neg h2]
      have hng : ¬ jsIndexOf seq "signature" > jsIndexOf seq "footer" := by
        intro hc
        exact h2 ⟨hsig, hf, hc⟩
      have hne := jsIndexOf_sig_ne_footer hsig hf
      show List.Sublist ["signature", "footer"] seq
      exact sublist_sig_of_lt hsig hf (by omega)

/-! Stage lemmas: occurrence counts of a non-special id never grow. -/

theorem occCount_cons_ne {x y : String} {t : List String} (h : y ≠ x) :
    occCount x (y :: t) = occCount x t := by
  simp [occCount, h]

theorem occ_fixHero_le {x : String} {l : List String} (hx : x ≠ "hero") :
    occCount x (fixHero l) ≤ occCount x l := by
  unfold fixHero
  by_cases h1 : "hero" ∈ l
  · rw [if_neg (not_not_intro h1)]
    by_cases h2 : l.head? = some "hero"
    · rw [if_neg (not_not_intro h2)]
    · rw [if_pos h2, occCount_cons_ne (Ne.symm hx)]
      exact occCount_filter_le
  · rw [if_pos h1, occCount_cons_ne (Ne.symm hx)]

theorem occ_fixFooter_le {x : String} {l : List String} (hx : x ≠ "footer") :
    occCount x (fixFooter l) ≤ occCount x l := by
  have hsing : occCount x ["footer"] = 0 := by
    simp [occCount, Ne.symm hx]
  unfold fixFooter
  by_cases h1 : "footer" ∈ l
  · rw [if_neg (not_not_intro h1)]
    by_cases h2 : l.getLast? = some "footer"
    · rw [if_neg (not_not_intro h2)]
    · rw [if_pos h2, occCount_append, hsing]
      simpa using occCount_filter_le
  · rw [if_pos h1, occCount_append, hsing]
    simp

theorem occ_fixSignature_le {x : String} {l : List String} (hx : x ≠ "signature") :
    occCount x (fixSignature l) ≤ occCount x l := by
  unfold fixSignature
  by_cases h1 : "signature" ∈ l
  · rw [if_neg (not_not_intro h1)]
    by_cases h2 : jsIndexOf l "signature" > jsIndexOf l "footer"
    · rw [if_pos h2, occCount_jsInsert, if_neg (Ne.symm hx)]
      simpa using occCount_jsRemove_le
    · rw [if_neg h2]
  · rw [if_pos h1, occCount_jsInsert, if_neg (Ne.symm hx)]
    simp

/-! Stage lemmas: summary-cards placement. -/

theorem jsInsert_after_first {l : List String} {x y : String} (hx : x ∈ l) :
    jsInsert l (jsIndexOf l x + 1) y
      = l.take (jsIndexOf l x) ++ x :: y :: l.drop (jsIndexOf l x + 1) := by
  unfold jsInsert
  rw [take_succ_jsIndexOf hx]
  simp

theorem adjacent_decomp {l : List String} {x y : String} (hx : x ∈ l) (hy : y ∈ l)
    (heq : jsIndexOf l y = jsIndexOf l x + 1) :
    l = l.take (jsIndexOf l x) ++ x :: y :: l.drop (jsIndexOf l y + 1) := by
  have hd : l.drop (jsIndexOf l x + 1) = y :: l.drop (jsIndexOf l y + 1) := by
    rw [← heq]
    exact drop_jsIndexOf hy
  conv_lhs => rw [jsIndexOf_decomp hx, hd]

theorem fixCardsLight_wanted_sb {l : List String}
    (hc : occCount "six-summary-cards" l ≤ 1) (hsb : "simple-body" ∈ l) :
    ∃ l₁ l₂, fixCardsLight l true
        = l₁ ++ "simple-body" :: "six-summary-cards" :: l₂
      ∧ "simple-body" ∉ l₁ ∧ "six-summary-cards" ∉ l₁ := by
  unfold fixCardsLight
  rw [if_pos rfl]
  by_cases h1 : "six-summary-cards" ∉ l ∧ "simple-body" ∈ l
  · rw [if_pos h1, jsInsert_after_first hsb]
    exact ⟨_, _, rfl, not_mem_take_jsIndexOf,
      fun hm => h1.1 (List.take_subset _ _ hm)⟩
  · have hcm : "six-summary-cards" ∈ l := by
      by_contra hcm
      exact h1 ⟨hcm, hsb⟩
    rw [if_neg h1]
    by_cases h2 : "six-summary-cards" ∈ l ∧ "simple-body" ∈ l
        ∧ jsIndexOf l "six-summary-cards" ≠ jsIndexOf l "simple-body" + 1
    · rw [if_pos h2]
      have hcr : "six-summary-cards"
          ∉ jsRemove l (jsIndexOf l "six-summary-cards") :=
        not_mem_jsRemove_jsIndexOf hc hcm
      have hsbr : "simple-body" ∈ jsRemove l (jsIndexOf l "six-summary-cards") :=
        mem_jsRemove_of_ne hsb (by decide)
      rw [jsInsert_after_first hsbr]
      exact ⟨_, _, rfl, not_mem_take_jsIndexOf,
        fun hm => hcr (List.take_subset _ _ hm)⟩
    · rw [if_neg h2]
      have heq : jsIndexOf l "six-summary-cards" = jsIndexOf l "simple-body" + 1 := by
        by_contra hne
        exact h2 ⟨hcm, hsb, hne⟩
      refine ⟨l.take (jsIndexOf l "simple-body"),
        l.drop (jsIndexOf l "six-summary-cards" + 1),
        adjacent_decomp hsb hcm heq, not_mem_take_jsIndexOf, ?_⟩
      exact not_mem_take_of_le_jsIndexOf (by omega)

theorem fixCardsLight_nosb {l : List String} (hsb : "simple-body" ∉ l) :
    fixCardsLight l true = l := by
  unfold fixCardsLight
  rw [if_pos rfl, if_neg (fun h => hsb h.2), if_neg (fun h => hsb h.2.1)]

theorem fixCardsLight_notwanted {l : List String}
    (hc : occCount "six-summary-cards" l ≤ 1) :
    "six-summary-cards" ∉ fixCardsLight l false := by
  unfold fixCardsLight
  rw [if_neg (by simp)]
  by_cases h3 : "six-summary-cards" ∈ l
  · rw [if_pos h3]
    exact not_mem_jsRemove_jsIndexOf hc h3
  · rw [if_neg h3]
    exact h3

theorem fixCardsLight_id_true {l : List String}
    (hcards : "six-summary-cards" ∈ l)
    (heq : jsIndexOf l "six-summary-cards" = jsIndexOf l "simple-body" + 1) :
    fixCardsLight l true = l := by
  unfold fixCardsLight
  rw [if_pos rfl, if_neg (fun h => h.1 hcards), if_neg (fun h => h.2.2 heq)]

theorem fixCardsLight_id_false {l : List String}
    (hc : "six-summary-cards" ∉ l) : fixCardsLight l false = l := by
  unfold fixCardsLight
  rw [if_neg (by simp), if_neg hc]

theorem fixCardsFull_wanted_spec {seq : List String}
    {slots : List (String × JValue)} (hw : planHasCards slots = true)
    (hc : occCount "six-summary-cards" seq ≤ 1) (hsb : "simple-body" ∈ seq)
    (horder : "six-summary-cards" ∉ seq
      ∨ jsIndexOf seq "simple-body" < jsIndexOf seq "six-summary-cards") :
    (∃ l₁ l₂, (fixCardsFull seq slots).1
        = l₁ ++ "simple-body" :: "six-summary-cards" :: l₂
      ∧ "simple-body" ∉ l₁ ∧ "six-summary-cards" ∉ l₁)
      ∧ (fixCardsFull seq slots).2 = slots := by
  unfold fixCardsFull
  rw [if_pos hw]
  by_cases h1 : "six-summary-cards" ∉ seq ∧ "simple-body" ∈ seq
  · rw [if_pos h1]
    have heq : jsInsert seq (jsIndexOf seq "simple-body" + 1) "six-summary-cards"
        = seq.take (jsIndexOf seq "simple-body")
          ++ "simple-body" :: "six-summary-cards"
            :: seq.drop (jsIndexOf seq "simple-body" + 1) := by
      rw [jsInsert_after_first hsb]
    exact ⟨⟨_, _, heq, not_mem_take_jsIndexOf,
      fun hm => h1.1 (List.take_subset _ _ hm)⟩, rfl⟩
  · have hcm : "six-summary-cards" ∈ seq := by
      by_contra hcm
      exact h1 ⟨hcm, hsb⟩
    have hlt : jsIndexOf seq "simple-body" < jsIndexOf seq "six-summary-cards" := by
      rcases horder with h' | h'
      · exact absurd hcm h'
      · exact h'
    rw [if_neg h1]
    by_cases h2 : "six-summary-cards" ∈ seq ∧ "simple-body" ∈ seq
        ∧ jsIndexOf seq "six-summary-cards" ≠ jsIndexOf seq "simple-body" + 1
    · rw [if_pos h2]
      have hcr : "six-summary-cards"
          ∉ jsRemove seq (jsIndexOf seq "six-summary-cards") :=
        not_mem_jsRemove_jsIndexOf hc hcm
      have hsbr : "simple-body" ∈ jsRemove seq (jsIndexOf seq "six-summary-cards") :=
        mem_jsRemove_gt hsb hlt
      have hidx : jsIndexOf (jsRemove seq (jsIndexOf seq "six-summary-cards"))
          "simple-body" = jsIndexOf seq "simple-body" :=
        jsIndexOf_jsRemove_gt hsb hlt
      have heq : jsInsert (jsRemove seq (jsIndexOf seq "six-summary-cards"))
          (jsIndexOf seq "simple-body" + 1) "six-summary-cards"
          = (jsRemove seq (jsIndexOf seq "six-summary-cards")).take
              (jsIndexOf (jsRemove seq (jsIndexOf seq "six-summary-cards"))
                "simple-body")
            ++ "simple-body" :: "six-summary-cards"
              :: (jsRemove seq (jsIndexOf seq "six-summary-cards")).drop
                (jsIndexOf (jsRemove seq (jsIndexOf seq "six-summary-cards"))
                  "simple-body" + 1) := by
        rw [← hidx, jsInsert_after_first hsbr]
      exact ⟨⟨_, _, heq, not_mem_take_jsIndexOf,
        fun hm => hcr (List.take_subset _ _ hm)⟩, rfl⟩
    · rw [if_neg h2]
      have heq : jsIndexOf seq "six-summary-cards"
          = jsIndexOf seq "simple-body" + 1 := by
        by_contra hne
        exact h2 ⟨hcm, hsb, hne⟩
      exact ⟨⟨seq.take (jsIndexOf seq "simple-body"),
        seq.drop (jsIndexOf seq "six-summary-cards" + 1),
        adjacent_decomp hsb hcm heq, not_mem_take_jsIndexOf,
        not_mem_take_of_le_jsIndexOf (by omega)⟩, rfl⟩

theorem fixCardsFull_nosb {seq : List String} {slots : List (String × JValue)}
    (hw : planHasCards slots = true) (hsb : "simple-body" ∉ seq) :
    fixCardsFull seq slots = (seq, slots) := by
  unfold fixCardsFull
  rw [if_pos hw, if_neg (fun h => hsb h.2), if_neg (fun h => hsb h.2.1)]

theorem fixCardsFull_notwanted {seq : List String} {slots : List (String × JValue)}
    (hw : planHasCards slots = false)
    (hc : occCount "six-summary-cards" seq ≤ 1) :
    "six-summary-cards" ∉ (fixCardsFull seq slots).1
      ∧ ("six-summary-cards" ∈ seq →
          (fixCardsFull seq slots).2
            = jsSetField slots "six-summary-cards" (.arr []))
      ∧ ("six-summary-cards" ∉ seq → fixCardsFull seq slots = (seq, slots)) := by
  unfold fixCardsFull
  rw [if_neg (by simp [hw])]
  by_cases h3 : "six-summary-cards" ∈ seq
  · rw [if_pos h3]
    exact ⟨not_mem_jsRemove_jsIndexOf hc h3, fun _ => rfl, fun h => absurd h3 h⟩
  · rw [if_neg h3]
    exact ⟨h3, fun h => absurd h h3, fun _ => rfl⟩

/-! Stage lemmas: the full-mode signature step. -/

theorem mem_fixSignatureFull_iff {x : String} {seq : List String}
    {slots : List (String × JValue)} (hx : x ≠ "signature") :
    x ∈ (fixSignatureFull seq slots).1 ↔ x ∈ seq := by
  unfold fixSignatureFull
  by_cases h1 : "signature" ∉ seq ∧ "footer" ∈ seq
  · rw [if_pos h1]
    show x ∈ jsInsert _ _ _ ↔ _
    rw [mem_jsInsert]
    constructor
    · rintro (h' | h')
      · exact absurd h' hx
      · exact h'
    · exact Or.inr
  · rw [if_neg h1]
    by_cases h2 : "signature" ∈ seq ∧ "footer" ∈ seq
        ∧ jsIndexOf seq "signature" > jsIndexOf seq "footer"
    · rw [if_pos h2]
      show x ∈ jsInsert _ _ _ ↔ _
      rw [mem_jsInsert]
      constructor
      · rintro (h' | h')
        · exact absurd h' hx
        · exact mem_of_mem_jsRemove h'
      · intro h'
        exact Or.inr (mem_jsRemove_of_ne h' hx)
    · rw [if_neg h2]

theorem fixSignatureFull_cards_slot {seq : List String}
    {slots : List (String × JValue)} :
    jsGetField (fixSignatureFull seq slots).2 "six-summary-cards"
      = jsGetField slots "six-summary-cards" := by
  unfold fixSignatureFull
  by_cases h1 : "signature" ∉ seq ∧ "footer" ∈ seq
  · rw [if_pos h1]
    show jsGetField (match jsGetField slots "signature" with
      | some v => if jsTruthy v then slots
          else jsSetField slots "signature" (.obj [])
      | none => jsSetField slots "signature" (.obj [])) "six-summary-cards" = _
    cases hs : jsGetField slots "signature" with
    | none => exact jsGetField_jsSetField_ne (by decide)
    | some v =>
      show jsGetField (if jsTruthy v = true then slots
        else jsSetField slots "signature" (.obj [])) "six-summary-cards" = _
      by_cases ht : jsTruthy v
      · rw [if_pos ht]
      · rw [if_neg ht]
        exact jsGetField_jsSetField_ne (by decide)
  · rw [if_neg h1]
    by_cases h2 : "signature" ∈ seq ∧ "footer" ∈ seq
        ∧ jsIndexOf seq "signature" > jsIndexOf seq "footer"
    · rw [if_pos h2]
    · rw [if_neg h2]

theorem fixSignatureFull_adj {seq : List String} {slots : List (String × JValue)}
    {l₁ l₂ : List String}
    (hdec : seq = l₁ ++ "simple-body" :: "six-summary-cards" :: l₂)
    (ha : "simple-body" ∉ l₁) (hb : "six-summary-cards" ∉ l₁) :
    ∃ m₁ m₂, (fixSignatureFull seq slots).1
        = m₁ ++ "simple-body" :: "six-summary-cards" :: m₂
      ∧ "simple-body" ∉ m₁ ∧ "six-summary-cards" ∉ m₁ := by
  unfold fixSignatureFull
  by_cases h1 : "signature" ∉ seq ∧ "footer" ∈ seq
  · rw [if_pos h1]
    exact adj_jsInsert hdec ha hb h1.2 (by decide) (by decide) (by decide) (by decide)
  · rw [if_neg h1]
    by_cases h2 : "signature" ∈ seq ∧ "footer" ∈ seq
        ∧ jsIndexOf seq "signature" > jsIndexOf seq "footer"
    · rw [if_pos h2]
      obtain ⟨m₁, m₂, hdec', ha', hb'⟩ :=
        adj_jsRemove hdec ha hb h2.1 (by decide) (by decide)
      have hfr : "footer" ∈ jsRemove seq (jsIndexOf seq "signature") :=
        mem_jsRemove_gt h2.2.1 h2.2.2
      have hidx : jsIndexOf (jsRemove seq (jsIndexOf seq "signature")) "footer"
          = jsIndexOf seq "footer" :=
        jsIndexOf_jsRemove_gt h2.2.1 h2.2.2
      show ∃ m₁ m₂, jsInsert (jsRemove seq (jsIndexOf seq "signature"))
          (jsIndexOf seq "footer") "signature" = _ ∧ _ ∧ _
      rw [← hidx]
      exact adj_jsInsert hdec' ha' hb' hfr (by decide) (by decide)
        (by decide) (by decide)
    · rw [if_neg h2]
      exact ⟨l₁, l₂, hdec, ha, hb⟩

theorem fixSignatureFull_id {seq : List String} {slots : List (String × JValue)}
    (h1 : "signature" ∈ seq)
    (h2 : ¬ jsIndexOf seq "signature" > jsIndexOf seq "footer") :
    fixSignatureFull seq slots = (seq, slots) := by
  unfold fixSignatureFull
  rw [if_neg (fun h => h.1 h1), if_neg (fun h => h2 h.2.2)]

theorem fixCardsFull_id_true {seq : List String} {slots : List (String × JValue)}
    (hw : planHasCards slots = true) (hcards : "six-summary-cards" ∈ seq)
    (heq : jsIndexOf seq "six-summary-cards" = jsIndexOf seq "simple-body" + 1) :
    fixCardsFull seq slots = (seq, slots) := by
  unfold fixCardsFull
  rw [if_pos hw, if_neg (fun h => h.1 hcards), if_neg (fun h => h.2.2 heq)]

theorem fixCardsFull_id_false {seq : List String} {slots : List (String × JValue)}
    (hw : planHasCards slots = false) (hc : "six-summary-cards" ∉ seq) :
    fixCardsFull seq slots = (seq, slots) := by
  unfold fixCardsFull
  rw [if_neg (by simp [hw]), if_neg hc]

/-! Identity of the renaming and defaulting passes on already-normalized
input. -/

theorem map_eq_self_of_fixed {f : String → String} {l : List String}
    (h : ∀ x ∈ l, f x = x) : l.map f = l := by
  induction l with
  | nil => rfl
  | cons y t ih =>
    rw [List.map_cons, h y (List.mem_cons_self _ _),
      ih fun x hx => h x (List.mem_cons_of_mem _ hx)]

theorem renameSequence_id {seq : List String}
    (h : ∀ x ∈ seq, mapSlotKey x = x) : renameSequence seq = seq :=
  map_eq_self_of_fixed h

theorem renameSlotKeys_id {slots : List (String × JValue)}
    (hnd : (slots.map Prod.fst).Nodup)
    (hfix : ∀ p ∈ slots, mapSlotKey p.1 = p.1) :
    renameSlotKeys slots = slots := by
  have hmap : ∀ l : List (String × JValue), (∀ p ∈ l, mapSlotKey p.1 = p.1) →
      (l.map fun p => mapSlotKey p.1) = l.map Prod.fst := by
    intro l
    induction l with
    | nil => intro _; rfl
    | cons q t ih =>
      intro hf
      rw [List.map_cons, List.map_cons, hf q (List.mem_cons_self _ _),
        ih fun p hp => hf p (List.mem_cons_of_mem _ hp)]
  have hprod : ∀ l : List (String × JValue), (∀ p ∈ l, mapSlotKey p.1 = p.1) →
      (l.map fun p => (mapSlotKey p.1, p.2)) = l := by
    intro l
    induction l with
    | nil => intro _; rfl
    | cons q t ih =>
      intro hf
      rw [List.map_cons, hf q (List.mem_cons_self _ _),
        ih fun p hp => hf p (List.mem_cons_of_mem _ hp)]
  rw [renameSlotKeys_eq_map (by rw [hmap slots hfix]; exact hnd), hprod slots hfix]

theorem normalizeSlots_id {slots : List (String × JValue)}
    (hnd : (slots.map Prod.fst).Nodup)
    (hfix : ∀ p ∈ slots, mapSlotKey p.1 = p.1)
    (hdef : ∀ d ∈ defaultSlots, (jsGetField slots d.1).isSome) :
    normalizeSlots slots = slots := by
  unfold normalizeSlots
  rw [renameSlotKeys_id hnd hfix]
  exact addDefaultsAux_id hdef

/-! Shape-validation characterizations. -/

theorem fieldIsTruthyString_iff {o : Option JValue} :
    fieldIsTruthyString o = true ↔ ∃ s, o = some (.str s) ∧ s ≠ "" := by
  cases o with
  | none => simp [fieldIsTruthyString]
  | some v =>
    cases v with
    | str s => simp [fieldIsTruthyString, jsTruthy, jsIsString]
    | arr l => simp [fieldIsTruthyString, jsTruthy, jsIsString]
    | obj f => simp [fieldIsTruthyString, jsTruthy, jsIsString]

theorem fieldIsNonemptyArray_iff {o : Option JValue} :
    fieldIsNonemptyArray o = true ↔ ∃ l, o = some (.arr l) ∧ l ≠ [] := by
  cases o with
  | none => simp [fieldIsNonemptyArray]
  | some v =>
    cases v with
    | str s => simp [fieldIsNonemptyArray]
    | arr l => simp [fieldIsNonemptyArray, List.length_eq_zero]
    | obj f => simp [fieldIsNonemptyArray]

theorem fieldIsObjectLike_iff {o : Option JValue} :
    fieldIsObjectLike o = true ↔ ∃ v, o = some v ∧ jsTypeofObject v = true := by
  cases o with
  | none => simp [fieldIsObjectLike]
  | some v =>
    cases v with
    | str s => simp [fieldIsObjectLike, jsTruthy, jsTypeofObject]
    | arr l => simp [fieldIsObjectLike, jsTruthy, jsTypeofObject]
    | obj f => simp [fieldIsObjectLike, jsTruthy, jsTypeofObject]

theorem validatePlan_valid_iff (p : RawShape) :
    (validatePlan p).1 = true ↔ fieldIsTruthyString p.subject = true
      ∧ fieldIsTruthyString p.preview = true
      ∧ fieldIsNonemptyArray p.sequence = true
      ∧ fieldIsObjectLike p.slots = true := by
  by_cases h1 : fieldIsTruthyString p.subject = true <;>
    by_cases h2 : fieldIsTruthyString p.preview = true <;>
      by_cases h3 : fieldIsNonemptyArray p.sequence = true <;>
        by_cases h4 : fieldIsObjectLike p.slots = true <;>
          simp [validatePlan, h1, h2, h3, h4]

theorem planValidationGate_ok_iff (p : RawShape) :
    (∃ q, planValidationGate p = .ok q) ↔ (validatePlan p).1 = true := by
  unfold planValidationGate
  by_cases h : (validatePlan p).1 = true
  · simp [h]
  · simp [h]

/-! Remaining helper lemmas for the claim theorems. -/

theorem mem_fixCardsFull_iff {x : String} {seq : List String}
    {slots : List (String × JValue)} (hx : x ≠ "six-summary-cards") :
    x ∈ (fixCardsFull seq slots).1 ↔ x ∈ seq := by
  unfold fixCardsFull
  by_cases hw : planHasCards slots = true
  · rw [if_pos hw]
    by_cases h1 : "six-summary-cards" ∉ seq ∧ "simple-body" ∈ seq
    · rw [if_pos h1]
      show x ∈ jsInsert _ _ _ ↔ _
      rw [mem_jsInsert]
      constructor
      · rintro (h' | h')
        · exact absurd h' hx
        · exact h'
      · exact Or.inr
    · rw [if_neg h1]
      by_cases h2 : "six-summary-cards" ∈ seq ∧ "simple-body" ∈ seq
          ∧ jsIndexOf seq "six-summary-cards" ≠ jsIndexOf seq "simple-body" + 1
      · rw [if_pos h2]
        show x ∈ jsInsert _ _ _ ↔ _
        rw [mem_jsInsert]
        constructor
        · rintro (h' | h')
          · exact absurd h' hx
          · exact mem_of_mem_jsRemove h'
        · intro h'
          exact Or.inr (mem_jsRemove_of_ne h' hx)
      · rw [if_neg h2]
  · rw [if_neg hw]
    by_cases h3 : "six-summary-cards" ∈ seq
    · rw [if_pos h3]
      show x ∈ jsRemove _ _ ↔ _
      constructor
      · exact mem_of_mem_jsRemove
      · intro h'
        exact mem_jsRemove_of_ne h' hx
    · rw [if_neg h3]

theorem mem_of_filter_eq {p : String → Bool} {l m : List String}
    (hf : l.filter p = m.filter p) {x : String} (hx : p x = true) :
    x ∈ l ↔ x ∈ m := by
  constructor <;> intro h
  · have hm : x ∈ l.filter p := List.mem_filter.mpr ⟨h, hx⟩
    rw [hf] at hm
    exact (List.mem_filter.mp hm).1
  · have hm : x ∈ m.filter p := List.mem_filter.mpr ⟨h, hx⟩
    rw [← hf] at hm
    exact (List.mem_filter.mp hm).1

theorem mem_filterAvailable_iff {seq avail : List String} {x : String} :
    x ∈ filterAvailable seq avail ↔ x ∈ seq ∧ x ∈ avail := by
  unfold filterAvailable
  rw [List.mem_filter]
  simp

theorem heroCtaAllowed_iff {hero : List (String × JValue)} :
    heroCtaAllowed hero = true
      ↔ ∃ u, jsGetField hero "cta_url" = some (.str u) ∧ u ∈ linkValues := by
  unfold heroCtaAllowed
  cases h : jsGetField hero "cta_url" with
  | none => simp
  | some v =>
    cases v with
    | str u => simp
    | arr l => simp
    | obj f => simp

theorem selectDefaultCtaLink_ok (seq : List String) (goal : Option String) :
    ∃ link, selectDefaultCtaLink seq goal = .ok link ∧ link ∈ linkValues := by
  unfold selectDefaultCtaLink
  split
  · exact ⟨_, rfl, by decide⟩
  · split
    · exact ⟨_, rfl, by decide⟩
    · split
      · exact ⟨_, rfl, by decide⟩
      · exact ⟨_, rfl, by decide⟩

/-! Claim theorems. -/

/-- C10: `validatePlan` rejects empty-string subject and preview, not only
missing or non-string ones: for every plan with `subject === ''` or
`preview === ''`, `validatePlan` returns `valid = false` (the checks test
falsiness before type), so a shape-complete plan whose subject or preview
is the empty string aborts the run (the caller gate never returns ok). -/
theorem c10_empty_string_rejected (p : RawShape)
    (h : p.subject = some (.str "") ∨ p.preview = some (.str "")) :
    (validatePlan p).1 = false ∧ ∀ q, planValidationGate p ≠ .ok q := by
  have hnv : ¬ (validatePlan p).1 = true := by
    rw [validatePlan_valid_iff]
    rintro ⟨hs, hpv, _, _⟩
    rcases h with h' | h'
    · rw [fieldIsTruthyString_iff] at hs
      obtain ⟨s, hso, hne⟩ := hs
      rw [h'] at hso
      simp only [Option.some.injEq, JValue.str.injEq] at hso
      exact hne hso.symm
    · rw [fieldIsTruthyString_iff] at hpv
      obtain ⟨s, hso, hne⟩ := hpv
      rw [h'] at hso
      simp only [Option.some.injEq, JValue.str.injEq] at hso
      exact hne hso.symm
  constructor
  · cases hb : (validatePlan p).1 with
    | false => rfl
    | true => exact absurd hb hnv
  · intro q hq
    exact hnv ((planValidationGate_ok_iff p).mp ⟨q, hq⟩)

/-- C10 witness: a concrete shape-complete plan with an empty subject is
reported invalid and aborts. -/
theorem c10_empty_string_rejected_witness :
    ((⟨some (.str ""), some (.str "ok"), some (.arr [.str "hero"]),
        some (.obj [])⟩ : RawShape).subject = some (.str "")
      ∨ (⟨some (.str ""), some (.str "ok"), some (.arr [.str "hero"]),
        some (.obj [])⟩ : RawShape).preview = some (.str ""))
    ∧ ((validatePlan ⟨some (.str ""), some (.str "ok"), some (.arr [.str "hero"]),
        some (.obj [])⟩).1 = false
      ∧ ∀ q, planValidationGate ⟨some (.str ""), some (.str "ok"),
          some (.arr [.str "hero"]), some (.obj [])⟩ ≠ .ok q) :=
  ⟨Or.inl rfl,
   c10_empty_string_rejected _ (Or.inl rfl)⟩

/-- C8 counterexample: a plan whose subject is present and IS a string
(the empty string), whose preview is a non-empty string, whose sequence is
a non-empty array and whose slots is an object, is nevertheless reported
invalid — so "invalid exactly when subject missing or not a string, ..."
fails as stated. -/
theorem c8_counterexample :
    (validatePlan ⟨some (.str ""), some (.str "y"), some (.arr [.str "hero"]),
        some (.obj [])⟩).1 = false
    ∧ (⟨some (.str ""), some (.str "y"), some (.arr [.str "hero"]),
        some (.obj [])⟩ : RawShape).subject = some (.str "")
    ∧ jsIsString (.str "") = true
    ∧ (∃ s, (⟨some (.str ""), some (.str "y"), some (.arr [.str "hero"]),
        some (.obj [])⟩ : RawShape).preview = some (.str s) ∧ s ≠ "")
    ∧ (∃ l, (⟨some (.str ""), some (.str "y"), some (.arr [.str "hero"]),
        some (.obj [])⟩ : RawShape).sequence = some (.arr l) ∧ l ≠ [])
    ∧ (∃ v, (⟨some (.str ""), some (.str "y"), some (.arr [.str "hero"]),
        some (.obj [])⟩ : RawShape).slots = some v ∧ jsTypeofObject v = true) := by
  refine ⟨rfl, rfl, rfl, ⟨"y", rfl, by decide⟩, ⟨[.str "hero"], rfl, by simp⟩,
    ⟨.obj [], rfl, rfl⟩⟩

/-- C8 (amended): `validatePlan` reports the plan valid — and the caller
gate returns ok — exactly when the subject is a present, non-empty string
(JS falsiness also rejects the empty string, which the original claim
missed), the preview likewise, the sequence is a non-empty array, and the
slots value is object-typed (array or object); recoverable irregularities
play no role in this check. -/
theorem c8_validation_shape (p : RawShape) :
    ((validatePlan p).1 = true ↔
      (∃ s, p.subject = some (JValue.str s) ∧ s ≠ "")
      ∧ (∃ s, p.preview = some (JValue.str s) ∧ s ≠ "")
      ∧ (∃ l, p.sequence = some (JValue.arr l) ∧ l ≠ [])
      ∧ (∃ v, p.slots = some v ∧ jsTypeofObject v = true))
    ∧ ((∃ q, planValidationGate p = .ok q) ↔ (validatePlan p).1 = true) := by
  constructor
  · rw [validatePlan_valid_iff, fieldIsTruthyString_iff, fieldIsTruthyString_iff,
      fieldIsNonemptyArray_iff, fieldIsObjectLike_iff]
  · exact planValidationGate_ok_iff p

/-- C9: the ordering fixups of both normalization paths neither reorder,
duplicate nor drop any non-special section: filtering the output to ids
other than hero, footer, signature and six-summary-cards yields exactly
the availability-filtered input, element for element. -/
theorem c9_nonspecial_frame (seq : List String) (w : Bool)
    (avail : List String) (slots : List (String × JValue)) :
    (postProcessSequence seq w avail).filter nonSpecialSection
        = (filterAvailable seq avail).filter nonSpecialSection
    ∧ ((attemptPlanFixups seq slots avail).1).filter nonSpecialSection
        = (filterAvailable seq avail).filter nonSpecialSection :=
  ⟨postProcessSequence_filter_frame seq w avail rfl rfl rfl rfl,
   attemptPlanFixups_filter_frame seq slots avail rfl rfl⟩

/-- C4 counterexample: with an empty `availableSectionIds` list the
lightweight normalization still outputs `hero` (and signature and footer),
so "every id in the normalized output sequence is a member of
availableSectionIds" is false as stated. -/
theorem c4_counterexample :
    postProcessSequence [] false [] = ["hero", "signature", "footer"]
    ∧ "hero" ∈ postProcessSequence [] false []
    ∧ "hero" ∉ ([] : List String) := by
  refine ⟨by decide, by decide, by decide⟩

/-- C4 (amended): availability filtering holds for every NON-special id
(anything other than hero, footer, signature, six-summary-cards): such an
id appears in the output of either normalization path iff it appears in
the input sequence and in `availableSectionIds`; in particular an
unavailable non-special id is silently dropped and never errors.  The
placement fixups may however re-insert the special ids hero, signature,
footer (lightweight) and signature, six-summary-cards (full) regardless of
availability. -/
theorem c4_unknown_sections_dropped (seq : List String) (w : Bool)
    (avail : List String) (slots : List (String × JValue)) (x : String)
    (hx : nonSpecialSection x = true) :
    (x ∈ postProcessSequence seq w avail ↔ x ∈ seq ∧ x ∈ avail)
    ∧ (x ∈ (attemptPlanFixups seq slots avail).1 ↔ x ∈ seq ∧ x ∈ avail) := by
  constructor
  · rw [mem_of_filter_eq
      (postProcessSequence_filter_frame seq w avail rfl rfl rfl rfl) hx]
    exact mem_filterAvailable_iff
  · rw [mem_of_filter_eq
      (attemptPlanFixups_filter_frame seq slots avail rfl rfl) hx]
    exact mem_filterAvailable_iff

/-- C4 witness: a concrete non-special id is kept iff available. -/
theorem c4_unknown_sections_dropped_witness :
    nonSpecialSection "social-media-van-conversions" = true
    ∧ ("social-media-van-conversions"
        ∈ postProcessSequence ["social-media-van-conversions", "mystery"] false
          ["social-media-van-conversions"]
      ↔ "social-media-van-conversions"
          ∈ ["social-media-van-conversions", "mystery"]
        ∧ "social-media-van-conversions" ∈ ["social-media-van-conversions"]) :=
  ⟨by decide,
   (c4_unknown_sections_dropped ["social-media-van-conversions", "mystery"]
     false ["social-media-van-conversions"] [] _ (by decide)).1⟩

/-- C2 counterexample: the full-mode path performs no hero fixup — the
sequence `["simple-body", "hero"]` (all sections available, no cards,
no footer) is passed through unchanged, so its first element is not
`hero`. -/
theorem c2_counterexample :
    (attemptPlanFixups ["simple-body", "hero"] [] ["simple-body", "hero"]).1
        = ["simple-body", "hero"]
    ∧ ((attemptPlanFixups ["simple-body", "hero"] []
        ["simple-body", "hero"]).1).head? ≠ some "hero" := by
  refine ⟨by decide, by decide⟩

/-- C2 (amended): the lightweight normalization path always returns a
sequence whose first element is `hero` (prepending it when absent,
deduplicating and re-prepending when present but not first); the full
(plan) path performs no hero fixup at all — in particular it never inserts
`hero`, so a sequence lacking `hero` still lacks it after normalization. -/
theorem c2_hero_first (seq : List String) (w : Bool) (avail : List String)
    (slots : List (String × JValue)) :
    (postProcessSequence seq w avail).head? = some "hero"
    ∧ ("hero" ∉ seq → "hero" ∉ (attemptPlanFixups seq slots avail).1) := by
  refine ⟨postProcessSequence_head seq w avail, ?_⟩
  intro h
  unfold attemptPlanFixups
  rw [mem_fixSignatureFull_iff (by decide), mem_fixCardsFull_iff (by decide),
    mem_filterAvailable_iff]
  rintro ⟨h', _⟩
  exact h h'

/-- C2 witness: at a concrete input the lightweight output starts with
`hero` while the full path keeps `hero` absent. -/
theorem c2_hero_first_witness :
    "hero" ∉ (["simple-body"] : List String)
    ∧ (postProcessSequence ["simple-body"] false ["simple-body"]).head?
        = some "hero"
    ∧ "hero" ∉ (attemptPlanFixups ["simple-body"] [] ["simple-body"]).1 :=
  ⟨by decide,
   (c2_hero_first ["simple-body"] false ["simple-body"] []).1,
   (c2_hero_first ["simple-body"] false ["simple-body"] []).2 (by decide)⟩

/-- C3 counterexample: the full-mode path performs no footer fixup — for
the input `["footer", "signature", "hero", "simple-body"]` (all available)
its signature step moves `signature` before `footer`, producing
`["signature", "footer", "hero", "simple-body"]`, which does not end with
`footer`. -/
theorem c3_counterexample :
    (attemptPlanFixups ["footer", "signature", "hero", "simple-body"] []
        ["footer", "signature", "hero", "simple-body"]).1
      = ["signature", "footer", "hero", "simple-body"]
    ∧ ((attemptPlanFixups ["footer", "signature", "hero", "simple-body"] []
        ["footer", "signature", "hero", "simple-body"]).1).getLast?
      ≠ some "footer" := by
  refine ⟨by decide, by decide⟩

/-- C3 (amended): the lightweight normalization path, on EVERY input
sequence, ends with `footer` and contains `signature` strictly before a
`footer` occurrence (the sublist `["signature", "footer"]` embeds in the
output).  The full (plan) path performs no footer fixup — it never inserts
`footer` — and only guarantees signature-before-footer when `footer`
survives the availability filter. -/
theorem c3_footer_last (seq : List String) (w : Bool) (avail : List String)
    (slots : List (String × JValue)) :
    (postProcessSequence seq w avail).getLast? = some "footer"
    ∧ List.Sublist ["signature", "footer"] (postProcessSequence seq w avail)
    ∧ ("footer" ∉ seq → "footer" ∉ (attemptPlanFixups seq slots avail).1)
    ∧ ("footer" ∈ filterAvailable seq avail →
        List.Sublist ["signature", "footer"]
          (attemptPlanFixups seq slots avail).1) := by
  obtain ⟨h1, h2⟩ := postProcessSequence_footer_spec seq w avail
  refine ⟨h1, h2, ?_, ?_⟩
  · intro h
    unfold attemptPlanFixups
    rw [mem_fixSignatureFull_iff (by decide), mem_fixCardsFull_iff (by decide),
      mem_filterAvailable_iff]
    rintro ⟨h', _⟩
    exact h h'
  · intro h
    unfold attemptPlanFixups
    exact fixSignatureFull_sig_before_footer
      ((mem_fixCardsFull_iff (by decide)).mpr h)

/-- C3 witness: at a concrete available-footer input the full path places
`signature` before `footer`, and the lightweight output ends with
`footer`. -/
theorem c3_footer_last_witness :
    "footer" ∈ filterAvailable ["hero", "footer"] ["hero", "footer"]
    ∧ (postProcessSequence ["hero", "footer"] false ["hero", "footer"]).getLast?
        = some "footer"
    ∧ List.Sublist ["signature", "footer"]
        (attemptPlanFixups ["hero", "footer"] [] ["hero", "footer"]).1 :=
  ⟨by decide,
   (c3_footer_last ["hero", "footer"] false ["hero", "footer"] []).1,
   (c3_footer_last ["hero", "footer"] false ["hero", "footer"] []).2.2.2
     (by decide)⟩

/-- C5: hero-CTA link enforcement.  An allow-listed `cta_url` leaves the
hero slot unchanged; otherwise only `cta_url` is replaced by the fallback
chosen by the fixed decision order (booking link when the sequence has
`book-a-call` or the lowered goal mentions "consult"; else builder link
for `selling-points-what-you-get`/"product"/"promo"/"sale"; else blog link
for "educat"/"guide"/"blog"; else the homepage), every other hero field
passing through; the resulting `cta_url` is always an allow-listed value
and enforcement never errors. -/
theorem c5_link_enforcement (hero : List (String × JValue))
    (seq : List String) (goal : Option String) :
    ((∃ u, jsGetField hero "cta_url" = some (.str u) ∧ u ∈ linkValues) →
        enforceHeroCta hero seq goal = .ok hero)
    ∧ (¬ (∃ u, jsGetField hero "cta_url" = some (.str u) ∧ u ∈ linkValues) →
        ∃ link, selectDefaultCtaLink seq goal = .ok link
          ∧ enforceHeroCta hero seq goal
              = .ok (jsSetField hero "cta_url" (.str link))
          ∧ link ∈ linkValues
          ∧ jsGetField (jsSetField hero "cta_url" (.str link)) "cta_url"
              = some (.str link)
          ∧ ∀ k, k ≠ "cta_url" →
              jsGetField (jsSetField hero "cta_url" (.str link)) k
                = jsGetField hero k)
    ∧ (∃ h', enforceHeroCta hero seq goal = .ok h'
        ∧ ∃ u, jsGetField h' "cta_url" = some (.str u) ∧ u ∈ linkValues)
    ∧ (("book-a-call" ∈ seq
          ∨ strIncludes (structGoalLower goal) "consult" = true) →
        selectDefaultCtaLink seq goal
          = .ok "https://cal.com/vunked/free-campervan-electrics-consultation-email")
    ∧ (¬ ("book-a-call" ∈ seq
          ∨ strIncludes (structGoalLower goal) "consult" = true) →
        ("selling-points-what-you-get" ∈ seq
          ∨ strIncludes (structGoalLower goal) "product" = true
          ∨ strIncludes (structGoalLower goal) "promo" = true
          ∨ strIncludes (structGoalLower goal) "sale" = true) →
        selectDefaultCtaLink seq goal = .ok "https://builder.vunked.com")
    ∧ (¬ ("book-a-call" ∈ seq
          ∨ strIncludes (structGoalLower goal) "consult" = true) →
        ¬ ("selling-points-what-you-get" ∈ seq
          ∨ strIncludes (structGoalLower goal) "product" = true
          ∨ strIncludes (structGoalLower goal) "promo" = true
          ∨ strIncludes (structGoalLower goal) "sale" = true) →
        (strIncludes (structGoalLower goal) "educat" = true
          ∨ strIncludes (structGoalLower goal) "guide" = true
          ∨ strIncludes (structGoalLower goal) "blog" = true) →
        selectDefaultCtaLink seq goal = .ok "https://vunked.com/blog")
    ∧ (¬ ("book-a-call" ∈ seq
          ∨ strIncludes (structGoalLower goal) "consult" = true) →
        ¬ ("selling-points-what-you-get" ∈ seq
          ∨ strIncludes (structGoalLower goal) "product" = true
          ∨ strIncludes (structGoalLower goal) "promo" = true
          ∨ strIncludes (structGoalLower goal) "sale" = true) →
        ¬ (strIncludes (structGoalLower goal) "educat" = true
          ∨ strIncludes (structGoalLower goal) "guide" = true
          ∨ strIncludes (structGoalLower goal) "blog" = true) →
        selectDefaultCtaLink seq goal = .ok "https://www.vunked.com") := by
  have hrepl : ¬ heroCtaAllowed hero = true →
      ∃ link, selectDefaultCtaLink seq goal = .ok link
        ∧ enforceHeroCta hero seq goal
            = .ok (jsSetField hero "cta_url" (.str link))
        ∧ link ∈ linkValues := by
    intro h
    obtain ⟨link, hsel, hmem⟩ := selectDefaultCtaLink_ok seq goal
    refine ⟨link, hsel, ?_, hmem⟩
    unfold enforceHeroCta
    rw [if_neg h, hsel]
  refine ⟨?_, ?_, ?_, ?_, ?_, ?_, ?_⟩
  · intro h
    unfold enforceHeroCta
    rw [if_pos (heroCtaAllowed_iff.mpr h)]
  · intro h
    obtain ⟨link, hsel, henf, hmem⟩ :=
      hrepl fun hh => h (heroCtaAllowed_iff.mp hh)
    exact ⟨link, hsel, henf, hmem, jsGetField_jsSetField_self,
      fun k hk => jsGetField_jsSetField_ne hk⟩
  · by_cases hok : heroCtaAllowed hero = true
    · refine ⟨hero, ?_, heroCtaAllowed_iff.mp hok⟩
      unfold enforceHeroCta
      rw [if_pos hok]
    · obtain ⟨link, hsel, henf, hmem⟩ := hrepl hok
      exact ⟨_, henf, link, jsGetField_jsSetField_self, hmem⟩
  · intro h
    unfold selectDefaultCtaLink
    rw [if_pos h]
    rfl
  · intro h1 h2
    unfold selectDefaultCtaLink
    rw [if_neg h1, if_pos h2]
    rfl
  · intro h1 h2 h3
    unfold selectDefaultCtaLink
    rw [if_neg h1, if_neg h2, if_pos h3]
    rfl
  · intro h1 h2 h3
    unfold selectDefaultCtaLink
    rw [if_neg h1, if_neg h2, if_neg h3]
    rfl

/-- C5 witness: a disallowed CTA URL with `book-a-call` in the sequence is
replaced (only in `cta_url`) by the booking link. -/
theorem c5_link_enforcement_witness :
    ∃ link, selectDefaultCtaLink ["hero", "book-a-call"] (some "General")
        = .ok link
      ∧ enforceHeroCta [("cta_url", JValue.str "https://evil.example.com")]
          ["hero", "book-a-call"] (some "General")
        = .ok (jsSetField [("cta_url", JValue.str "https://evil.example.com")]
            "cta_url" (.str link))
      ∧ link ∈ linkValues
      ∧ jsGetField (jsSetField
          [("cta_url", JValue.str "https://evil.example.com")]
          "cta_url" (.str link)) "cta_url" = some (.str link)
      ∧ ∀ k, k ≠ "cta_url" →
          jsGetField (jsSetField
            [("cta_url", JValue.str "https://evil.example.com")]
            "cta_url" (.str link)) k
          = jsGetField [("cta_url", JValue.str "https://evil.example.com")] k :=
  (c5_link_enforcement [("cta_url", JValue.str "https://evil.example.com")]
    ["hero", "book-a-call"] (some "General")).2.1 (by
      rintro ⟨u, hu, hm⟩
      have h2 : some (JValue.str "https://evil.example.com")
          = some (JValue.str u) := hu
      injection h2 with h3
      injection h3 with h4
      rw [← h4] at hm
      exact absurd hm (by decide))

/-- C6: slot normalization renames every known underscore key to its
hyphen equivalent with its payload unchanged (stated for inputs whose
renamed keys are distinct, as JS objects cannot carry colliding keys),
fills each of the seven known slot keys that is still absent with its
type-correct empty default, passes unknown keys through unchanged (they
rename to themselves), leaves every known key present, and in `createPlan`
the sequence members are renamed by the same key map before the ordering
rules run. -/
theorem c6_slot_normalization (slots : List (String × JValue))
    (hnd : (slots.map fun p => mapSlotKey p.1).Nodup) :
    (∀ k v, (k, v) ∈ slots →
        jsGetField (normalizeSlots slots) (mapSlotKey k) = some v)
    ∧ (∀ d ∈ defaultSlots,
        (d.1 ∉ slots.map fun p => mapSlotKey p.1) →
        jsGetField (normalizeSlots slots) d.1 = some (jsEmptyCopy d.2))
    ∧ (∀ d ∈ defaultSlots, jsEmptyCopy d.2 = d.2)
    ∧ (∀ d ∈ defaultSlots, (jsGetField (normalizeSlots slots) d.1).isSome)
    ∧ (∀ seq : List String, renameSequence seq = seq.map mapSlotKey) := by
  have hren := renameSlotKeys_eq_map hnd
  have ha : ∀ k v, (k, v) ∈ slots →
      jsGetField (normalizeSlots slots) (mapSlotKey k) = some v := by
    intro k v hkv
    have hmem : (mapSlotKey k, v) ∈ slots.map fun p => (mapSlotKey p.1, p.2) :=
      List.mem_map.mpr ⟨(k, v), hkv, rfl⟩
    have hnd' : ((slots.map fun p => (mapSlotKey p.1, p.2)).map Prod.fst).Nodup := by
      rw [List.map_map]
      exact hnd
    have hlook := jsGetField_of_mem_nodup hnd' hmem
    unfold normalizeSlots
    rw [hren]
    exact addDefaultsAux_preserves_some hlook
  have hb : ∀ d ∈ defaultSlots,
      (d.1 ∉ slots.map fun p => mapSlotKey p.1) →
      jsGetField (normalizeSlots slots) d.1 = some (jsEmptyCopy d.2) := by
    intro d hd hnot
    have hnone : jsGetField (renameSlotKeys slots) d.1 = none := by
      rw [hren]
      apply jsGetField_eq_none
      intro q hq
      obtain ⟨p, hp, he⟩ := List.mem_map.mp hq
      intro hcontra
      apply hnot
      rw [← hcontra, ← he]
      exact List.mem_map.mpr ⟨p, hp, rfl⟩
    have hndd : (defaultSlots.map Prod.fst).Nodup := by decide
    exact addDefaultsAux_fills hndd hd hnone
  refine ⟨ha, hb, ?_, ?_, fun _ => rfl⟩
  · intro d hd
    simp only [defaultSlots, List.mem_cons, List.not_mem_nil, or_false] at hd
    rcases hd with rfl | rfl | rfl | rfl | rfl | rfl | rfl <;> rfl
  · intro d hd
    by_cases hin : d.1 ∈ slots.map fun p => mapSlotKey p.1
    · obtain ⟨p, hp, he⟩ := List.mem_map.mp hin
      have hl := ha p.1 p.2 hp
      rw [he] at hl
      rw [hl]
      rfl
    · rw [hb d hd hin]
      rfl

/-- C6 witness: a concrete slots object with an underscore key and an
unknown key normalizes as claimed. -/
theorem c6_slot_normalization_witness :
    (([("simple_body", JValue.arr [JValue.str "x"]),
        ("weird", JValue.str "w")].map fun p => mapSlotKey p.1).Nodup)
    ∧ jsGetField (normalizeSlots [("simple_body", JValue.arr [JValue.str "x"]),
        ("weird", JValue.str "w")]) (mapSlotKey "simple_body")
      = some (JValue.arr [JValue.str "x"]) :=
  ⟨by decide,
   (c6_slot_normalization _ (by decide)).1 "simple_body" _
     (List.mem_cons_self _ _)⟩

/-- C7: normalization is idempotent on already-valid input.  For a
sequence that uses only available, already-renamed ids, starts with hero,
ends with footer, has signature strictly before footer, and whose
six-summary-cards presence and position already agree with the cards flag
(lightweight) resp. the cards payload (full mode), and for a slots object
with distinct, already-hyphenated keys carrying all seven known slots,
every normalization pass returns its input unchanged: no reordering and
no slot mutation. -/
theorem c7_idempotent_normalization (seq avail : List String) (w : Bool)
    (slots : List (String × JValue))
    (h1 : ∀ x ∈ seq, x ∈ avail)
    (h2 : seq.head? = some "hero")
    (h3 : seq.getLast? = some "footer")
    (h4 : "signature" ∈ seq)
    (h5 : jsIndexOf seq "signature" < jsIndexOf seq "footer")
    (h6 : w = true → "six-summary-cards" ∈ seq
      ∧ jsIndexOf seq "six-summary-cards" = jsIndexOf seq "simple-body" + 1)
    (h7 : w = false → "six-summary-cards" ∉ seq)
    (h8 : planHasCards slots = true → "six-summary-cards" ∈ seq
      ∧ jsIndexOf seq "six-summary-cards" = jsIndexOf seq "simple-body" + 1)
    (h9 : planHasCards slots = false → "six-summary-cards" ∉ seq)
    (h10 : ∀ x ∈ seq, mapSlotKey x = x)
    (h11 : (slots.map Prod.fst).Nodup)
    (h12 : ∀ p ∈ slots, mapSlotKey p.1 = p.1)
    (h13 : ∀ d ∈ defaultSlots, (jsGetField slots d.1).isSome) :
    postProcessSequence seq w avail = seq
    ∧ renameSequence seq = seq
    ∧ normalizeSlots slots = slots
    ∧ attemptPlanFixups seq slots avail = (seq, slots) := by
  have hfa : filterAvailable seq avail = seq := by
    unfold filterAvailable
    exact List.filter_eq_self.mpr fun a ha => decide_eq_true (h1 a ha)
  refine ⟨?_, renameSequence_id h10, normalizeSlots_id h11 h12 h13, ?_⟩
  · unfold postProcessSequence
    rw [hfa, fixHero_id h2, fixFooter_id h3, fixSignature_id h4 (by omega)]
    cases hw : w with
    | true => exact fixCardsLight_id_true (h6 hw).1 (h6 hw).2
    | false => exact fixCardsLight_id_false (h7 hw)
  · unfold attemptPlanFixups
    rw [hfa]
    cases hpc : planHasCards slots with
    | true =>
      rw [fixCardsFull_id_true hpc (h8 hpc).1 (h8 hpc).2]
      show fixSignatureFull seq slots = (seq, slots)
      exact fixSignatureFull_id h4 (by omega)
    | false =>
      rw [fixCardsFull_id_false hpc (h9 hpc)]
      show fixSignatureFull seq slots = (seq, slots)
      exact fixSignatureFull_id h4 (by omega)

/-- C7 witness: a concrete fully-valid plan is returned unchanged by both
paths. -/
theorem c7_idempotent_normalization_witness :
    (jsIndexOf ["hero", "simple-body", "six-summary-cards", "signature",
        "footer"] "signature"
      < jsIndexOf ["hero", "simple-body", "six-summary-cards", "signature",
        "footer"] "footer")
    ∧ (postProcessSequence
          ["hero", "simple-body", "six-summary-cards", "signature", "footer"]
          true
          ["hero", "simple-body", "six-summary-cards", "signature", "footer"]
        = ["hero", "simple-body", "six-summary-cards", "signature", "footer"]
      ∧ renameSequence
          ["hero", "simple-body", "six-summary-cards", "signature", "footer"]
        = ["hero", "simple-body", "six-summary-cards", "signature", "footer"]
      ∧ normalizeSlots
          [("hero", JValue.obj [("title", JValue.str ""),
              ("subtitle", JValue.str ""), ("cta_text", JValue.str ""),
              ("cta_url", JValue.str "")]),
           ("simple-body", JValue.arr []),
           ("six-summary-cards", JValue.arr [JValue.obj
              [("title", JValue.str "t"), ("description", JValue.str "d"),
               ("emoji", JValue.str "e")]]),
           ("book-a-call", JValue.obj []), ("footer", JValue.obj []),
           ("contact", JValue.obj []), ("signature", JValue.obj [])]
        = [("hero", JValue.obj [("title", JValue.str ""),
              ("subtitle", JValue.str ""), ("cta_text", JValue.str ""),
              ("cta_url", JValue.str "")]),
           ("simple-body", JValue.arr []),
           ("six-summary-cards", JValue.arr [JValue.obj
              [("title", JValue.str "t"), ("description", JValue.str "d"),
               ("emoji", JValue.str "e")]]),
           ("book-a-call", JValue.obj []), ("footer", JValue.obj []),
           ("contact", JValue.obj []), ("signature", JValue.obj [])]
      ∧ attemptPlanFixups
          ["hero", "simple-body", "six-summary-cards", "signature", "footer"]
          [("hero", JValue.obj [("title", JValue.str ""),
              ("subtitle", JValue.str ""), ("cta_text", JValue.str ""),
              ("cta_url", JValue.str "")]),
           ("simple-body", JValue.arr []),
           ("six-summary-cards", JValue.arr [JValue.obj
              [("title", JValue.str "t"), ("description", JValue.str "d"),
               ("emoji", JValue.str "e")]]),
           ("book-a-call", JValue.obj []), ("footer", JValue.obj []),
           ("contact", JValue.obj []), ("signature", JValue.obj [])]
          ["hero", "simple-body", "six-summary-cards", "signature", "footer"]
        = (["hero", "simple-body", "six-summary-cards", "signature", "footer"],
           [("hero", JValue.obj [("title", JValue.str ""),
              ("subtitle", JValue.str ""), ("cta_text", JValue.str ""),
              ("cta_url", JValue.str "")]),
            ("simple-body", JValue.arr []),
            ("six-summary-cards", JValue.arr [JValue.obj
              [("title", JValue.str "t"), ("description", JValue.str "d"),
               ("emoji", JValue.str "e")]]),
            ("book-a-call", JValue.obj []), ("footer", JValue.obj []),
            ("contact", JValue.obj []), ("signature", JValue.obj [])])) :=
  ⟨by decide,
   c7_idempotent_normalization _ _ _ _
     (by decide) (by decide) (by decide) (by decide) (by decide)
     (by decide) (by decide)
     (fun _ => by decide) (fun h => by simp [planHasCards, jsGetField] at h)
     (by decide) (by decide) (by decide)
     (by decide)⟩

/-- C1 counterexample: in lightweight mode with `use_summary_cards = true`
but no `simple-body` anchor in the sequence, `six-summary-cards` is NOT
inserted — so "the output contains six-summary-cards iff summary cards are
wanted" is false as stated. -/
theorem c1_counterexample :
    "six-summary-cards" ∉ postProcessSequence ["hero"] true
      ["hero", "simple-body", "six-summary-cards", "signature", "footer"] := by
  decide

/-- C1 (amended): for inputs carrying at most one occurrence of
`six-summary-cards`: (lightweight) when the flag is false the section is
absent from the output; when the flag is true and `simple-body` survives
the filter, the output contains the card section immediately after the
first `simple-body`; when the flag is true but `simple-body` is absent,
the card section is neither inserted nor removed (present iff it was in
the filtered input).  (full mode) when the payload is not a non-empty
array the section is removed and, if it was present, its slot payload is
forced to `[]`; when the payload is non-empty and `simple-body` is
present, the section lands immediately after `simple-body` provided it did
not precede `simple-body` in the filtered input — when it did, the stale
`simpleBodyIndex` of the source misplaces it one position later, as the
concrete final conjunct shows; without the `simple-body` anchor nothing is
inserted or moved. -/
theorem c1_summary_cards_placement (seq avail : List String) (w : Bool)
    (slots : List (String × JValue))
    (hc : occCount "six-summary-cards" seq ≤ 1) :
    (w = false → "six-summary-cards" ∉ postProcessSequence seq w avail)
    ∧ (w = true → "simple-body" ∈ filterAvailable seq avail →
        ∃ l₁ l₂, postProcessSequence seq w avail
            = l₁ ++ "simple-body" :: "six-summary-cards" :: l₂
          ∧ "simple-body" ∉ l₁ ∧ "six-summary-cards" ∉ l₁)
    ∧ (w = true → "simple-body" ∉ filterAvailable seq avail →
        ("six-summary-cards" ∈ postProcessSequence seq w avail
          ↔ "six-summary-cards" ∈ filterAvailable seq avail))
    ∧ (planHasCards slots = false →
        "six-summary-cards" ∉ (attemptPlanFixups seq slots avail).1
        ∧ ("six-summary-cards" ∈ filterAvailable seq avail →
            jsGetField (attemptPlanFixups seq slots avail).2 "six-summary-cards"
              = some (.arr [])))
    ∧ (planHasCards slots = true → "simple-body" ∈ filterAvailable seq avail →
        ("six-summary-cards" ∉ filterAvailable seq avail
          ∨ jsIndexOf (filterAvailable seq avail) "simple-body"
              < jsIndexOf (filterAvailable seq avail) "six-summary-cards") →
        ∃ l₁ l₂, (attemptPlanFixups seq slots avail).1
            = l₁ ++ "simple-body" :: "six-summary-cards" :: l₂
          ∧ "simple-body" ∉ l₁ ∧ "six-summary-cards" ∉ l₁)
    ∧ (planHasCards slots = true → "simple-body" ∉ filterAvailable seq avail →
        ("six-summary-cards" ∈ (attemptPlanFixups seq slots avail).1
          ↔ "six-summary-cards" ∈ filterAvailable seq avail))
    ∧ (attemptPlanFixups ["six-summary-cards", "simple-body", "hero"]
          [("six-summary-cards", JValue.arr [JValue.obj []])]
          ["six-summary-cards", "simple-body", "hero"]).1
        = ["simple-body", "hero", "six-summary-cards"] := by
  have hoccF : occCount "six-summary-cards" (filterAvailable seq avail) ≤ 1 :=
    le_trans occCount_filter_le hc
  have hocc3 : occCount "six-summary-cards"
      (fixSignature (fixFooter (fixHero (filterAvailable seq avail)))) ≤ 1 :=
    le_trans (occ_fixSignature_le (by decide))
      (le_trans (occ_fixFooter_le (by decide))
        (le_trans (occ_fixHero_le (by decide)) hoccF))
  have hmemiff : ∀ x : String, x ≠ "hero" → x ≠ "footer" → x ≠ "signature" →
      (x ∈ fixSignature (fixFooter (fixHero (filterAvailable seq avail)))
        ↔ x ∈ filterAvailable seq avail) := by
    intro x hx1 hx2 hx3
    rw [mem_fixSignature_iff hx3, mem_fixFooter_iff hx2, mem_fixHero_iff hx1]
  refine ⟨?_, ?_, ?_, ?_, ?_, ?_, ?_⟩
  · intro hw
    rw [hw]
    unfold postProcessSequence
    exact fixCardsLight_notwanted hocc3
  · intro hw hsb
    rw [hw]
    unfold postProcessSequence
    exact fixCardsLight_wanted_sb hocc3
      ((hmemiff "simple-body" (by decide) (by decide) (by decide)).mpr hsb)
  · intro hw hsb
    rw [hw]
    unfold postProcessSequence
    rw [fixCardsLight_nosb
      (fun hmem => hsb
        ((hmemiff "simple-body" (by decide) (by decide) (by decide)).mp hmem))]
    exact hmemiff "six-summary-cards" (by decide) (by decide) (by decide)
  · intro hpc
    obtain ⟨hna, hforce, _⟩ := fixCardsFull_notwanted hpc hoccF
    constructor
    · unfold attemptPlanFixups
      rw [mem_fixSignatureFull_iff (by decide)]
      exact hna
    · intro hmem
      unfold attemptPlanFixups
      rw [fixSignatureFull_cards_slot, hforce hmem]
      exact jsGetField_jsSetField_self
  · intro hpc hsb horder
    obtain ⟨⟨l₁, l₂, hdec, ha, hb⟩, _⟩ :=
      fixCardsFull_wanted_spec hpc hoccF hsb horder
    unfold attemptPlanFixups
    exact fixSignatureFull_adj hdec ha hb
  · intro hpc hsb
    unfold attemptPlanFixups
    rw [fixCardsFull_nosb hpc hsb]
    rw [mem_fixSignatureFull_iff (by decide)]
  · decide

/-- C1 witness: a concrete lightweight run with the flag on and
`simple-body` available places the card section right after it. -/
theorem c1_summary_cards_placement_witness :
    occCount "six-summary-cards" ["hero", "six-summary-cards", "simple-body"] ≤ 1
    ∧ ∃ l₁ l₂, postProcessSequence ["hero", "six-summary-cards", "simple-body"]
          true
          ["hero", "six-summary-cards", "simple-body", "signature", "footer"]
        = l₁ ++ "simple-body" :: "six-summary-cards" :: l₂
      ∧ "simple-body" ∉ l₁ ∧ "six-summary-cards" ∉ l₁ :=
  ⟨by decide,
   (c1_summary_cards_placement ["hero", "six-summary-cards", "simple-body"]
     ["hero", "six-summary-cards", "simple-body", "signature", "footer"]
     true [] (by decide)).2.1 rfl (by decide)⟩
